import Mathlib

/-!
Verification development for the snmpbug SNMP agent (C sources:
utils.c, mib.c, snmpbug.c, snmpbug.h, globals.c, config.h).

The C data is shallowly embedded:
* an OID is the list of its sub-identifiers (`subid_list` of `oid_t`,
  each an `unsigned int`, so a `Nat` below 2^32; `subid_list_length`
  is the list length; capacity `MAX_NR_SUBIDS = 20`),
* the MIB table `g_mib` is the list of its entries' OIDs (the
  pre-encoded value buffers of `value_t` play no role in the ordering
  and lookup claims),
* buffers of bytes are lists of `Nat` below 256,
* machine arithmetic is made explicit (`% 2^32` for `unsigned int`
  wrap-around, an explicit cast for `(int)` applied to an unsigned value).
-/

/-- An OID as in `oid_t`: the list of sub-identifiers. -/
abbrev Oid := List Nat

/-- MAX_NR_OIDS = MAX_NR_SUBIDS = 20 (snmpbug.h). -/
def MAX_NR_SUBIDS : Nat := 20

/-- The C cast `(int)v` applied to an `unsigned int` value `v < 2^32`
(utils.c `oid_cmp` does `(int)oid1->subid_list[i]`): values below 2^31 are
unchanged, larger ones wrap to negatives. -/
def castSubid (v : Nat) : Int :=
  if v < 2147483648 then (v : Int) else (v : Int) - 4294967296

/-- The value `oid_cmp` compares at position `i`:
`(oid->subid_list_length > i) ? (int)oid->subid_list[i] : -1`. -/
def subidAt (o : Oid) (i : Nat) : Int :=
  if i < o.length then castSubid (o.getD i 0) else -1

/-- The `for (i = 0; i < MAX_NR_OIDS; i++)` loop body of `oid_cmp`
(utils.c:115-133), with `fuel` iterations left, current index `i`. -/
def oid_cmp_loop (a b : Oid) : Nat → Nat → Int
  | _, 0 => 0
  | i, fuel + 1 =>
    let s1 := subidAt a i
    let s2 := subidAt b i
    if s1 = -1 ∧ s2 = -1 then 0
    else if s2 < s1 then 1
    else if s1 < s2 then -1
    else oid_cmp_loop a b (i + 1) fuel

/-- `oid_cmp` (utils.c:115-133): 20 = MAX_NR_OIDS loop iterations. -/
def oid_cmp (a b : Oid) : Int := oid_cmp_loop a b 0 20

theorem oid_cmp_loop_refl (a : Oid) : ∀ fuel i, oid_cmp_loop a a i fuel = 0 := by
  intro fuel
  induction fuel with
  | zero => intro i; rfl
  | succ n ih =>
    intro i
    simp only [oid_cmp_loop]
    split
    · rfl
    · simp only [lt_self_iff_false, if_false]
      exact ih (i + 1)

theorem oid_cmp_refl (a : Oid) : oid_cmp a a = 0 :=
  oid_cmp_loop_refl a 20 0

theorem oid_cmp_loop_swap (a b : Oid) :
    ∀ fuel i, oid_cmp_loop b a i fuel = - oid_cmp_loop a b i fuel := by
  intro fuel
  induction fuel with
  | zero => intro i; rfl
  | succ n ih =>
    intro i
    simp only [oid_cmp_loop]
    rcases lt_trichotomy (subidAt a i) (subidAt b i) with h | h | h
    · have h1 : ¬(subidAt b i = -1 ∧ subidAt a i = -1) := by
        rintro ⟨hb, ha⟩; rw [ha, hb] at h; exact lt_irrefl _ h
      have h2 : ¬(subidAt a i = -1 ∧ subidAt b i = -1) := by
        rintro ⟨ha, hb⟩; rw [ha, hb] at h; exact lt_irrefl _ h
      rw [if_neg h1, if_neg h2, if_pos h, if_pos h, if_neg (not_lt.mpr (le_of_lt h))]
      rfl
    · rw [h]
      split
      · simp
      · simp only [lt_self_iff_false, if_false]
        exact ih (i + 1)
    · have h1 : ¬(subidAt b i = -1 ∧ subidAt a i = -1) := by
        rintro ⟨hb, ha⟩; rw [ha, hb] at h; exact lt_irrefl _ h
      have h2 : ¬(subidAt a i = -1 ∧ subidAt b i = -1) := by
        rintro ⟨ha, hb⟩; rw [ha, hb] at h; exact lt_irrefl _ h
      rw [if_neg h1, if_neg h2, if_neg (not_lt.mpr (le_of_lt h)), if_pos h, if_pos h]

theorem oid_cmp_swap (a b : Oid) : oid_cmp b a = - oid_cmp a b :=
  oid_cmp_loop_swap a b 20 0

theorem oid_cmp_loop_trans (a b c : Oid) :
    ∀ fuel i, oid_cmp_loop a b i fuel = -1 → oid_cmp_loop b c i fuel = -1 →
      oid_cmp_loop a c i fuel = -1 := by
  intro fuel
  induction fuel with
  | zero => intro i h hh; simp [oid_cmp_loop] at h
  | succ n ih =>
    intro i hab hbc
    simp only [oid_cmp_loop] at hab hbc ⊢
    by_cases e1 : subidAt a i = -1 ∧ subidAt b i = -1
    · rw [if_pos e1] at hab; exact absurd hab (by decide)
    rw [if_neg e1] at hab
    by_cases g1 : subidAt b i < subidAt a i
    · rw [if_pos g1] at hab; exact absurd hab (by decide)
    rw [if_neg g1] at hab
    by_cases e2 : subidAt b i = -1 ∧ subidAt c i = -1
    · rw [if_pos e2] at hbc; exact absurd hbc (by decide)
    rw [if_neg e2] at hbc
    by_cases g2 : subidAt c i < subidAt b i
    · rw [if_pos g2] at hbc; exact absurd hbc (by decide)
    rw [if_neg g2] at hbc
    -- now in each comparison we are in the < or the recurse branch
    by_cases l1 : subidAt a i < subidAt b i
    · -- a < b at i
      by_cases l2 : subidAt b i < subidAt c i
      · have hac : subidAt a i < subidAt c i := lt_trans l1 l2
        have hne : ¬(subidAt a i = -1 ∧ subidAt c i = -1) := by
          rintro ⟨ha, hc⟩; rw [ha, hc] at hac; exact lt_irrefl _ hac
        rw [if_neg hne, if_neg (not_lt.mpr (le_of_lt hac)), if_pos hac]
      · -- b = c at i (recursed), and b ≠ -1 there (else e2 with c = b)
        have hbceq : subidAt b i = subidAt c i := le_antisymm (not_lt.mp g2) (not_lt.mp l2)
        have hac : subidAt a i < subidAt c i := hbceq ▸ l1
        have hne : ¬(subidAt a i = -1 ∧ subidAt c i = -1) := by
          rintro ⟨ha, hc⟩; rw [ha, hc] at hac; exact lt_irrefl _ hac
        rw [if_neg hne, if_neg (not_lt.mpr (le_of_lt hac)), if_pos hac]
    · -- a = b at i, recursed in hab
      have habeq : subidAt a i = subidAt b i := le_antisymm (not_lt.mp g1) (not_lt.mp l1)
      rw [if_neg l1] at hab
      by_cases l2 : subidAt b i < subidAt c i
      · have hac : subidAt a i < subidAt c i := habeq ▸ l2
        have hne : ¬(subidAt a i = -1 ∧ subidAt c i = -1) := by
          rintro ⟨ha, hc⟩; rw [ha, hc] at hac; exact lt_irrefl _ hac
        rw [if_neg hne, if_neg (not_lt.mpr (le_of_lt hac)), if_pos hac]
      · have hbceq : subidAt b i = subidAt c i := le_antisymm (not_lt.mp g2) (not_lt.mp l2)
        rw [if_neg l2] at hbc
        have haceq : subidAt a i = subidAt c i := habeq.trans hbceq
        have hne : ¬(subidAt a i = -1 ∧ subidAt c i = -1) := by
          rintro ⟨ha, hc⟩
          exact e1 ⟨ha, habeq.symm ▸ ha⟩
        rw [if_neg hne, if_neg (by rw [haceq]; exact lt_irrefl _),
            if_neg (by rw [haceq]; exact lt_irrefl _)]
        exact ih (i + 1) hab hbc

theorem oid_cmp_trans (a b c : Oid) :
    oid_cmp a b = -1 → oid_cmp b c = -1 → oid_cmp a c = -1 :=
  oid_cmp_loop_trans a b c 20 0

theorem getD_of_lt {α : Type} (l : List α) (d : α) (i : Nat) (h : i < l.length) :
    l.getD i d = l[i] := by
  simp [List.getD_eq_getElem?_getD, List.getElem?_eq_getElem h]

/-- With all sub-identifiers below 2^31 the cast is the inclusion. -/
theorem subidAt_of_lt {o : Oid} {i : Nat} (h : i < o.length)
    (hv : ∀ v ∈ o, v < 2147483648) : subidAt o i = (o.getD i 0 : Int) := by
  have hm : o.getD i 0 ∈ o := by
    rw [getD_of_lt o 0 i h]; exact List.getElem_mem h
  simp only [subidAt, castSubid, if_pos h, if_pos (hv _ hm)]

theorem subidAt_nonneg {o : Oid} {i : Nat} (h : i < o.length)
    (hv : ∀ v ∈ o, v < 2147483648) : 0 ≤ subidAt o i := by
  rw [subidAt_of_lt h hv]; exact Int.ofNat_nonneg _

theorem subidAt_of_ge {o : Oid} {i : Nat} (h : o.length ≤ i) : subidAt o i = -1 := by
  simp only [subidAt, if_neg (not_lt.mpr h)]

theorem oid_cmp_loop_eq_of_zero {a b : Oid}
    (ha : ∀ v ∈ a, v < 2147483648) (hb : ∀ v ∈ b, v < 2147483648)
    (la : a.length ≤ 20) (lb : b.length ≤ 20) :
    ∀ fuel i, 20 ≤ i + fuel → oid_cmp_loop a b i fuel = 0 → a.drop i = b.drop i := by
  intro fuel
  induction fuel with
  | zero =>
    intro i hi _
    rw [List.drop_eq_nil_of_le (by omega), List.drop_eq_nil_of_le (by omega)]
  | succ n ih =>
    intro i hi h0
    simp only [oid_cmp_loop] at h0
    by_cases hs : subidAt a i = -1 ∧ subidAt b i = -1
    · -- both exhausted: with subids < 2^31 a sentinel means out of range
      have hia : a.length ≤ i := by
        by_contra hc
        have := subidAt_nonneg (not_le.mp hc) ha
        omega
      have hib : b.length ≤ i := by
        by_contra hc
        have := subidAt_nonneg (not_le.mp hc) hb
        omega
      rw [List.drop_eq_nil_of_le hia, List.drop_eq_nil_of_le hib]
    · rw [if_neg hs] at h0
      by_cases g1 : subidAt b i < subidAt a i
      · rw [if_pos g1] at h0; exact absurd h0 (by decide)
      rw [if_neg g1] at h0
      by_cases g2 : subidAt a i < subidAt b i
      · rw [if_pos g2] at h0; exact absurd h0 (by decide)
      rw [if_neg g2] at h0
      have heq : subidAt a i = subidAt b i := le_antisymm (not_lt.mp g1) (not_lt.mp g2)
      have hia : i < a.length := by
        by_contra hc
        have h1 : subidAt a i = -1 := subidAt_of_ge (not_lt.mp hc)
        have h2 : i < b.length := by
          by_contra hc2
          exact hs ⟨h1, subidAt_of_ge (not_lt.mp hc2)⟩
        have := subidAt_nonneg h2 hb
        omega
      have hib : i < b.length := by
        by_contra hc
        have h1 : subidAt b i = -1 := subidAt_of_ge (not_lt.mp hc)
        have := subidAt_nonneg hia ha
        omega
      have hval : a[i] = b[i] := by
        have := heq
        rw [subidAt_of_lt hia ha, subidAt_of_lt hib hb,
            getD_of_lt a 0 i hia, getD_of_lt b 0 i hib] at this
        exact_mod_cast this
      rw [List.drop_eq_getElem_cons hia, List.drop_eq_getElem_cons hib, hval,
          ih (i + 1) (by omega) h0]

theorem oid_cmp_loop_of_take {a b : Oid} (hb : ∀ v ∈ b, v < 2147483648)
    (hlen : a.length < b.length) (lb : b.length ≤ 20) (htake : b.take a.length = a) :
    ∀ fuel i, 20 ≤ i + fuel → i ≤ a.length → oid_cmp_loop a b i fuel = -1 := by
  intro fuel
  induction fuel with
  | zero => intro i hi hia; omega
  | succ n ih =>
    intro i hi hia
    simp only [oid_cmp_loop]
    rcases lt_or_eq_of_le hia with hlt | heq
    · -- inside the shared prefix: equal, non-sentinel entries
      have hibl : i < b.length := lt_trans hlt hlen
      have hval : a.getD i 0 = b.getD i 0 := by
        rw [← htake]
        simp only [List.getD_eq_getElem?_getD, List.getElem?_take_of_lt hlt]
      have hsa : subidAt a i = (b.getD i 0 : Int) := by
        rw [subidAt_of_lt hlt (fun v hv => by
          rw [← htake] at hv
          exact hb v (List.mem_of_mem_take hv))]
        rw [hval]
      have hsb : subidAt b i = (b.getD i 0 : Int) := by
        rw [subidAt_of_lt hibl hb]
      have hnn : (0:Int) ≤ (b.getD i 0 : Int) := Int.ofNat_nonneg _
      rw [hsa, hsb]
      rw [if_neg (by rintro ⟨hx, _⟩; omega), if_neg (lt_irrefl _), if_neg (lt_irrefl _)]
      exact ih (i + 1) (by omega) hlt
    · -- at the end of a: the missing position compares as -1 against a real subid
      have hibl : i < b.length := heq ▸ hlen
      have hsa : subidAt a i = -1 := subidAt_of_ge (le_of_eq heq.symm)
      have hsb : 0 ≤ subidAt b i := subidAt_nonneg hibl hb
      rw [if_neg (by rintro ⟨_, hx⟩; omega), if_neg (by omega), if_pos (by omega)]

/-- C1 counterexample: with arbitrary 32-bit sub-identifiers `oid_cmp` is
not a strict total order in the claimed sense. The cast `(int)subid` maps
4294967295 to -1, the sentinel used for missing positions, so the OID
.1.4294967295 compares as equal to the shorter OID .1, although the lists
differ and .1 is a strict prefix of .1.4294967295 (so the claimed "strict
prefix compares as less" also fails). -/
theorem oid_cmp_claim_counterexample :
    oid_cmp [1, 4294967295] [1] = 0 ∧
    ([1, 4294967295] : Oid) ≠ [1] ∧
    ([1] : Oid).length < ([1, 4294967295] : Oid).length ∧
    ([1, 4294967295] : Oid).take 1 = [1] ∧
    oid_cmp [1] [1, 4294967295] ≠ -1 := by
  decide

/-- C1 (amended): restricted to OIDs whose sub-identifiers are at most
2^31 - 1 (so that the C cast `(int)subid` in `oid_cmp` is value-preserving
and never collides with the -1 sentinel) and of length at most
MAX_NR_SUBIDS = 20, `oid_cmp` is a strict total order: reflexively equal,
antisymmetric, transitive, equal only on identical sub-identifier lists,
and a strict prefix compares as less (missing positions compare as -1,
below any present sub-identifier). -/
theorem oid_cmp_strict_total_order (a b c : Oid)
    (ha : ∀ v ∈ a, v < 2147483648) (hb : ∀ v ∈ b, v < 2147483648)
    (hc : ∀ v ∈ c, v < 2147483648)
    (la : a.length ≤ MAX_NR_SUBIDS) (lb : b.length ≤ MAX_NR_SUBIDS)
    (lc : c.length ≤ MAX_NR_SUBIDS) :
    oid_cmp a a = 0 ∧
    (oid_cmp a b = -1 ↔ oid_cmp b a = 1) ∧
    (oid_cmp a b = -1 → oid_cmp b c = -1 → oid_cmp a c = -1) ∧
    (oid_cmp a b = 0 → a = b) ∧
    (a.length < b.length → b.take a.length = a → oid_cmp a b = -1) := by
  refine ⟨oid_cmp_refl a, ?_, oid_cmp_trans a b c, ?_, ?_⟩
  · constructor
    · intro h
      rw [oid_cmp_swap a b, h]
      rfl
    · intro h
      have := oid_cmp_swap a b
      omega
  · intro h
    have := oid_cmp_loop_eq_of_zero ha hb la lb 20 0 (by omega) h
    simpa using this
  · intro hlen htake
    exact oid_cmp_loop_of_take hb hlen lb htake 20 0 (by omega) (by omega)

/-- Witness for the amended C1 theorem at concrete OIDs. -/
theorem oid_cmp_strict_total_order_witness :
    oid_cmp [1, 3, 6] [1, 3, 6] = 0 ∧
    (oid_cmp [1, 3, 6] [1, 3, 6, 1] = -1 ↔ oid_cmp [1, 3, 6, 1] [1, 3, 6] = 1) ∧
    (oid_cmp [1, 3, 6] [1, 3, 6, 1] = -1 → oid_cmp [1, 3, 6, 1] [1, 4] = -1 →
      oid_cmp [1, 3, 6] [1, 4] = -1) ∧
    (oid_cmp [1, 3, 6] [1, 3, 6, 1] = 0 → ([1, 3, 6] : Oid) = [1, 3, 6, 1]) ∧
    (([1, 3, 6] : Oid).length < ([1, 3, 6, 1] : Oid).length →
      ([1, 3, 6, 1] : Oid).take ([1, 3, 6] : Oid).length = [1, 3, 6] →
      oid_cmp [1, 3, 6] [1, 3, 6, 1] = -1) :=
  oid_cmp_strict_total_order [1, 3, 6] [1, 3, 6, 1] [1, 4]
    (by decide) (by decide) (by decide) (by decide) (by decide) (by decide)

/-- `mib_findnext` (mib.c:993-1004): linear scan from position 0, returning
the first table entry whose OID compares strictly greater than the probe.
Entries are represented by their OIDs. -/
def mib_findnext (m : List Oid) (o : Oid) : Option Oid :=
  m.find? (fun e => decide (0 < oid_cmp e o))

/-- C2: on a table whose entries are strictly ascending under `oid_cmp`
(adjacent entries compare as less), `mib_findnext` returns none exactly when
no entry is strictly greater than the probe, and otherwise returns an entry
of the table strictly greater than the probe with no table entry strictly
between the probe and it (so it is the least entry above the probe). -/
theorem mib_findnext_correct (m : List Oid) (probe : Oid)
    (hsorted : List.Chain' (fun x y => oid_cmp x y = -1) m) :
    (mib_findnext m probe = none ↔ ∀ e ∈ m, ¬ 0 < oid_cmp e probe) ∧
    (∀ v, mib_findnext m probe = some v →
      v ∈ m ∧ 0 < oid_cmp v probe ∧
      ∀ e ∈ m, ¬(0 < oid_cmp e probe ∧ oid_cmp e v = -1)) := by
  haveI : IsTrans Oid (fun x y => oid_cmp x y = -1) := ⟨fun a b c => oid_cmp_trans a b c⟩
  rw [List.chain'_iff_pairwise] at hsorted
  constructor
  · simp [mib_findnext, List.find?_eq_none]
  · intro v hv
    unfold mib_findnext at hv
    rw [List.find?_eq_some] at hv
    obtain ⟨hpv, as, bs, hm, hnot⟩ := hv
    have hvm : v ∈ m := by rw [hm]; exact List.mem_append_right as (List.mem_cons_self v bs)
    refine ⟨hvm, by simpa using hpv, ?_⟩
    intro e he
    rw [hm] at he
    rcases List.mem_append.mp he with hel | her
    · have := hnot e hel
      rintro ⟨hgt, _⟩
      simp only [Bool.not_eq_true', decide_eq_false_iff_not] at this
      exact this hgt
    · rcases List.mem_cons.mp her with rfl | hebs
      · rintro ⟨_, hx⟩
        rw [oid_cmp_refl] at hx
        exact absurd hx (by decide)
      · rw [hm] at hsorted
        have hpw := (List.pairwise_append.mp hsorted).2.1
        have hlt : oid_cmp v e = -1 := (List.pairwise_cons.mp hpw).1 e hebs
        rintro ⟨_, hx⟩
        rw [oid_cmp_swap, hlt] at hx
        exact absurd hx (by decide)

/-- Witness for the C2 theorem on a concrete three-entry sorted table. -/
theorem mib_findnext_correct_witness :
    (mib_findnext [[1, 3, 1], [1, 3, 2], [1, 3, 3]] [1, 3, 5] = none ↔
      ∀ e ∈ [[1, 3, 1], [1, 3, 2], [1, 3, 3]], ¬ 0 < oid_cmp e [1, 3, 5]) ∧
    (∀ v, mib_findnext [[1, 3, 1], [1, 3, 2], [1, 3, 3]] [1, 3, 5] = some v →
      v ∈ [[1, 3, 1], [1, 3, 2], [1, 3, 3]] ∧ 0 < oid_cmp v [1, 3, 5] ∧
      ∀ e ∈ [[1, 3, 1], [1, 3, 2], [1, 3, 3]],
        ¬(0 < oid_cmp e [1, 3, 5] ∧ oid_cmp e v = -1)) :=
  mib_findnext_correct [[1, 3, 1], [1, 3, 2], [1, 3, 3]] [1, 3, 5]
    (by rw [List.chain'_cons, List.chain'_cons]
        exact ⟨by decide, by decide, List.chain'_singleton _⟩)

/-- One membership test of `mib_find` (mib.c:977-991): the current entry is
at least as long as the probe and agrees with it on all of the probe's
positions (`memcmp` over `oid->subid_list_length` sub-identifier words). -/
def oidMatch (curr probe : Oid) : Prop :=
  probe.length ≤ curr.length ∧ curr.take probe.length = probe

instance (curr probe : Oid) : Decidable (oidMatch curr probe) := by
  unfold oidMatch; infer_instance

/-- The `while (*pos < g_mib_length)` loop of `mib_find` over the remaining
entries, carrying the cursor `*pos` (in/out parameter). -/
def mib_find_loop : List Oid → Oid → Nat → Option Oid × Nat
  | [], _, pos => (none, pos)
  | e :: rest, o, pos =>
    if oidMatch e o then (some e, pos)
    else mib_find_loop rest o (pos + 1)

/-- `mib_find` (mib.c:977-991): scan from cursor position `pos`. -/
def mib_find (m : List Oid) (o : Oid) (pos : Nat) : Option Oid × Nat :=
  mib_find_loop (m.drop pos) o pos

theorem mib_find_loop_spec (o : Oid) : ∀ (l : List Oid) (pos : Nat),
    pos ≤ (mib_find_loop l o pos).2 ∧
    (∀ e, (mib_find_loop l o pos).1 = some e →
      (mib_find_loop l o pos).2 - pos < l.length ∧
      l.getD ((mib_find_loop l o pos).2 - pos) [] = e ∧ oidMatch e o ∧
      ∀ j < (mib_find_loop l o pos).2 - pos, ¬ oidMatch (l.getD j []) o) ∧
    ((mib_find_loop l o pos).1 = none → (mib_find_loop l o pos).2 = pos + l.length ∧
      ∀ j < l.length, ¬ oidMatch (l.getD j []) o) := by
  intro l
  induction l with
  | nil =>
    intro pos
    refine ⟨le_refl _, ?_, ?_⟩
    · intro e he; exact absurd he (by simp [mib_find_loop])
    · intro _; exact ⟨rfl, by intro j hj; simp at hj⟩
  | cons x rest ih =>
    intro pos
    by_cases hx : oidMatch x o
    · simp only [mib_find_loop, if_pos hx]
      refine ⟨le_refl _, ?_, ?_⟩
      · intro e he
        obtain rfl : x = e := by simpa using he
        exact ⟨by simp, by simp, hx, by omega⟩
      · intro hnone; exact absurd hnone (by simp)
    · simp only [mib_find_loop, if_neg hx]
      obtain ⟨h1, h2, h3⟩ := ih (pos + 1)
      refine ⟨by omega, ?_, ?_⟩
      · intro e he
        obtain ⟨k1, k2, k3, k4⟩ := h2 e he
        have hge : pos + 1 ≤ (mib_find_loop rest o (pos + 1)).2 := h1
        refine ⟨by simp; omega, ?_, k3, ?_⟩
        · have : (mib_find_loop rest o (pos + 1)).2 - pos =
              ((mib_find_loop rest o (pos + 1)).2 - (pos + 1)) + 1 := by omega
          rw [this, List.getD_cons_succ]
          exact k2
        · intro j hj
          match j with
          | 0 => simpa using hx
          | j' + 1 =>
            rw [List.getD_cons_succ]
            exact k4 j' (by omega)
      · intro hnone
        obtain ⟨k1, k2⟩ := h3 hnone
        refine ⟨by simp; omega, ?_⟩
        intro j hj
        match j with
        | 0 => simpa using hx
        | j' + 1 =>
          rw [List.getD_cons_succ]
          exact k2 j' (by simp at hj; omega)

theorem getD_drop (m : List Oid) (pos j : Nat) :
    (m.drop pos).getD j [] = m.getD (pos + j) [] := by
  simp [List.getD_eq_getElem?_getD, List.getElem?_drop]

/-- C8: `mib_find` advances the cursor monotonically and returns the first
entry at or after the cursor whose OID is a prefix-or-equal match of the
probe (at least as long as the probe and agreeing on all of the probe's
positions); it returns none exactly if no entry at or after the cursor
matches, and on success the final cursor points at the returned entry. -/
theorem mib_find_correct (m : List Oid) (probe : Oid) (pos : Nat) :
    pos ≤ (mib_find m probe pos).2 ∧
    (∀ e, (mib_find m probe pos).1 = some e →
      (mib_find m probe pos).2 < m.length ∧
      m.getD (mib_find m probe pos).2 [] = e ∧
      probe.length ≤ e.length ∧ e.take probe.length = probe ∧
      ∀ j, pos ≤ j → j < (mib_find m probe pos).2 →
        ¬(probe.length ≤ (m.getD j []).length ∧
          (m.getD j []).take probe.length = probe)) ∧
    ((mib_find m probe pos).1 = none →
      ∀ j, pos ≤ j → j < m.length →
        ¬(probe.length ≤ (m.getD j []).length ∧
          (m.getD j []).take probe.length = probe)) := by
  obtain ⟨h1, h2, h3⟩ := mib_find_loop_spec probe (m.drop pos) pos
  have hlen : (m.drop pos).length = m.length - pos := List.length_drop pos m
  rw [hlen] at h2 h3
  simp only [mib_find]
  refine ⟨h1, ?_, ?_⟩
  · intro e he
    obtain ⟨k1, k2, k3, k4⟩ := h2 e he
    rw [getD_drop] at k2
    refine ⟨by omega, ?_, k3.1, k3.2, ?_⟩
    · rwa [Nat.add_sub_cancel' h1] at k2
    · intro j hj1 hj2
      have hk := k4 (j - pos) (by omega)
      rw [getD_drop, Nat.add_sub_cancel' hj1] at hk
      exact hk
  · intro hnone j hj1 hj2
    obtain ⟨k1, k2⟩ := h3 hnone
    have hk := k2 (j - pos) (by omega)
    rw [getD_drop, Nat.add_sub_cancel' hj1] at hk
    exact hk

/-- Witness for the C8 theorem: cursor 1 on a three-entry table, probe a
strict prefix of the third entry. -/
theorem mib_find_correct_witness :
    1 ≤ (mib_find [[1, 3, 1, 0], [1, 3, 2, 0], [1, 3, 2, 1]] [1, 3, 2] 1).2 ∧
    (∀ e, (mib_find [[1, 3, 1, 0], [1, 3, 2, 0], [1, 3, 2, 1]] [1, 3, 2] 1).1 = some e →
      (mib_find [[1, 3, 1, 0], [1, 3, 2, 0], [1, 3, 2, 1]] [1, 3, 2] 1).2 <
        ([[1, 3, 1, 0], [1, 3, 2, 0], [1, 3, 2, 1]] : List Oid).length ∧
      ([[1, 3, 1, 0], [1, 3, 2, 0], [1, 3, 2, 1]] : List Oid).getD
        (mib_find [[1, 3, 1, 0], [1, 3, 2, 0], [1, 3, 2, 1]] [1, 3, 2] 1).2 [] = e ∧
      ([1, 3, 2] : Oid).length ≤ e.length ∧ e.take ([1, 3, 2] : Oid).length = [1, 3, 2] ∧
      ∀ j, 1 ≤ j → j < (mib_find [[1, 3, 1, 0], [1, 3, 2, 0], [1, 3, 2, 1]] [1, 3, 2] 1).2 →
        ¬(([1, 3, 2] : Oid).length ≤
            (([[1, 3, 1, 0], [1, 3, 2, 0], [1, 3, 2, 1]] : List Oid).getD j []).length ∧
          (([[1, 3, 1, 0], [1, 3, 2, 0], [1, 3, 2, 1]] : List Oid).getD j []).take
            ([1, 3, 2] : Oid).length = [1, 3, 2])) ∧
    ((mib_find [[1, 3, 1, 0], [1, 3, 2, 0], [1, 3, 2, 1]] [1, 3, 2] 1).1 = none →
      ∀ j, 1 ≤ j → j < ([[1, 3, 1, 0], [1, 3, 2, 0], [1, 3, 2, 1]] : List Oid).length →
        ¬(([1, 3, 2] : Oid).length ≤
            (([[1, 3, 1, 0], [1, 3, 2, 0], [1, 3, 2, 1]] : List Oid).getD j []).length ∧
          (([[1, 3, 1, 0], [1, 3, 2, 0], [1, 3, 2, 1]] : List Oid).getD j []).take
            ([1, 3, 2] : Oid).length = [1, 3, 2])) :=
  mib_find_correct [[1, 3, 1, 0], [1, 3, 2, 0], [1, 3, 2, 1]] [1, 3, 2] 1

/-! Text form of OIDs: `oid_ntoa` / `oid_aton` (utils.c:71-113). -/

/-- Big-endian decimal digit characters of `v` (no sign, no padding), with
explicit fuel for structural recursion; `%u` of `snprintf`. -/
def decDigitsAux : Nat → Nat → List Char
  | 0, _ => []
  | fuel + 1, v => if v = 0 then [] else decDigitsAux fuel (v / 10) ++ [Nat.digitChar (v % 10)]

/-- Decimal text of one sub-identifier as printed by `snprintf("%u")`. -/
def decDigits (v : Nat) : List Char :=
  if v = 0 then ['0'] else decDigitsAux v v

/-- The untruncated dotted text `".s0.s1..."` of an OID. -/
def dotted (o : Oid) : List Char :=
  (o.map (fun v => '.' :: decDigits v)).flatten

/-- `oid_ntoa` (utils.c:71-84): formats into a static `char buf[202]`
(`MAX_NR_SUBIDS * 10 + 2`), so `snprintf` truncation keeps only the first
201 characters of the dotted text; the loop breaks once the would-be length
reaches the buffer size. -/
def oid_ntoa (o : Oid) : List Char :=
  (dotted o).take 201

theorem decDigitsAux_eq_digits :
    ∀ fuel v, v ≤ fuel → decDigitsAux fuel v = (Nat.digits 10 v).reverse.map Nat.digitChar := by
  intro fuel
  induction fuel with
  | zero =>
    intro v hv
    obtain rfl : v = 0 := by omega
    simp [decDigitsAux]
  | succ n ih =>
    intro v hv
    by_cases h0 : v = 0
    · subst h0; simp [decDigitsAux]
    · have hd : Nat.digits 10 v = v % 10 :: Nat.digits 10 (v / 10) :=
        Nat.digits_def' (by norm_num) (Nat.pos_of_ne_zero h0)
      rw [decDigitsAux, if_neg h0, ih (v / 10) (by omega), hd]
      simp

theorem decDigits_eq_digits (v : Nat) (h0 : v ≠ 0) :
    decDigits v = (Nat.digits 10 v).reverse.map Nat.digitChar := by
  rw [decDigits, if_neg h0, decDigitsAux_eq_digits v v (le_refl v)]

theorem decDigits_ne_nil (v : Nat) : decDigits v ≠ [] := by
  by_cases h0 : v = 0
  · subst h0; simp [decDigits]
  · rw [decDigits_eq_digits v h0]
    have hne : Nat.digits 10 v ≠ [] := Nat.digits_ne_nil_iff_ne_zero.mpr h0
    simp [hne]

/-- `isspace` in the C locale, as consulted by `strtoul`. -/
def isSpaceC (c : Char) : Bool :=
  c = ' ' || c = '\t' || c = '\n' || c = '\x0b' || c = '\x0c' || c = '\r'

/-- Numeric value of a character for `strtoul` digit parsing
(decimal digits `0`-`9`, then letters `a`-`z` / `A`-`Z` for bases above 10;
codes 48-57, 97-122, 65-90). -/
def digitVal (c : Char) : Option Nat :=
  if 48 ≤ c.toNat ∧ c.toNat ≤ 57 then some (c.toNat - 48)
  else if 97 ≤ c.toNat ∧ c.toNat ≤ 122 then some (c.toNat - 97 + 10)
  else if 65 ≤ c.toNat ∧ c.toNat ≤ 90 then some (c.toNat - 65 + 10)
  else none

/-- Whether `c` is a digit of the given base. -/
def isDigitB (base : Nat) (c : Char) : Bool :=
  match digitVal c with
  | some d => d < base
  | none => false

/-- Accumulated value of a digit run (exact, before saturation). -/
def digitsVal (base : Nat) (l : List Char) : Nat :=
  l.foldl (fun a c => a * base + ((digitVal c).getD 0)) 0

/-- `strtoul(ptr, &ptr, 0)` as used by `oid_aton` (utils.c:106): skips
C-locale whitespace, accepts one optional sign, detects base 16 for `0x`/`0X`
followed by a hex digit and base 8 for a remaining leading `0` (else 10),
reads the maximal digit run, saturates at ULONG_MAX = 2^64 - 1 on overflow,
negates modulo 2^64 for a minus sign, and reports how many characters were
consumed (zero, leaving the pointer unmoved, when there is no digit). -/
def strtoul0 (s : List Char) : Nat × Nat :=
  let s1 := s.dropWhile isSpaceC
  let ws := s.length - s1.length
  let neg : Bool := s1.head? = some '-'
  let s2 := if s1.head? = some '-' ∨ s1.head? = some '+' then s1.tail else s1
  let sl := s1.length - s2.length
  let hexCase : Prop :=
    (s2.take 2 = ['0', 'x'] ∨ s2.take 2 = ['0', 'X']) ∧ isDigitB 16 (s2.getD 2 ' ') = true
  let bbs : Nat × Nat × List Char :=
    if hexCase then (2, 16, s2.drop 2)
    else if s2.head? = some '0' then (0, 8, s2) else (0, 10, s2)
  let run := bbs.2.2.takeWhile (isDigitB bbs.2.1)
  if run.isEmpty then (0, 0)
  else
    let v := digitsVal bbs.2.1 run
    let value :=
      if 18446744073709551615 < v then 18446744073709551615
      else if neg then (18446744073709551616 - v) % 18446744073709551616 else v
    (value, ws + sl + bbs.1 + run.length)

/-- The `while (*ptr != 0)` loop of `oid_aton` (utils.c:95-107), with fuel
for structural recursion (each iteration consumes at least the dot, so
`s.length` fuel is enough): checks the MAX_NR_SUBIDS cap, demands a dot,
rejects a trailing dot, then reads one `strtoul` numeral and stores it as
an `unsigned int` (mod 2^32). -/
def oid_aton_loop : Nat → List Char → List Nat → Option (List Nat)
  | _, [], acc => some acc
  | 0, _ :: _, _ => none
  | fuel + 1, c :: rest, acc =>
    if MAX_NR_SUBIDS ≤ acc.length then none
    else if c ≠ '.' then none
    else if rest.isEmpty then none
    else
      let vk := strtoul0 rest
      oid_aton_loop fuel (rest.drop vk.2) (acc ++ [vk.1 % 4294967296])

/-- `oid_aton` (utils.c:86-113): parse loop, then the final checks
`subid_list_length < 2` and `(subid_list[0] * 40 + subid_list[1]) > 0xFF`
(the latter in `unsigned int` arithmetic). -/
def oid_aton (s : List Char) : Option (List Nat) :=
  (oid_aton_loop s.length s []).bind (fun l =>
    if l.length < 2 ∨ 255 < (l.getD 0 0 * 40 + l.getD 1 0) % 4294967296 then none
    else some l)

theorem digitVal_digitChar : ∀ d < 10, digitVal (Nat.digitChar d) = some d := by decide

theorem isDigitB_digitChar : ∀ d < 10, isDigitB 10 (Nat.digitChar d) = true := by decide

theorem isDigitB_dot (base : Nat) : isDigitB base '.' = false := by
  have h : digitVal '.' = none := by decide
  simp [isDigitB, h]

theorem decDigits_all_digits (v : Nat) : ∀ c ∈ decDigits v, isDigitB 10 c = true := by
  by_cases h0 : v = 0
  · subst h0; intro c hc; simp [decDigits] at hc; subst hc; decide
  · rw [decDigits_eq_digits v h0]
    intro c hc
    simp only [List.mem_map, List.mem_reverse] at hc
    obtain ⟨d, hd, rfl⟩ := hc
    exact isDigitB_digitChar d (Nat.digits_lt_base (by norm_num) hd)

/-- A base-10 digit character has code 48-57, hence is not whitespace, not a
sign, not a dot, and not the letters used for hex numerals. -/
theorem digit_char_code {c : Char} (h : isDigitB 10 c = true) :
    48 ≤ c.toNat ∧ c.toNat ≤ 57 := by
  unfold isDigitB digitVal at h
  by_cases h1 : 48 ≤ c.toNat ∧ c.toNat ≤ 57
  · exact h1
  · rw [if_neg h1] at h
    by_cases h2 : 97 ≤ c.toNat ∧ c.toNat ≤ 122
    · rw [if_pos h2] at h
      simp only [decide_eq_true_eq] at h
      omega
    · rw [if_neg h2] at h
      by_cases h3 : 65 ≤ c.toNat ∧ c.toNat ≤ 90
      · rw [if_pos h3] at h
        simp only [decide_eq_true_eq] at h
        omega
      · rw [if_neg h3] at h
        exact absurd h (by decide)

theorem char_ne_of_code {c : Char} {d : Char} (hc : 48 ≤ c.toNat ∧ c.toNat ≤ 57)
    (hd : d.toNat < 48 ∨ 57 < d.toNat) : c ≠ d := by
  intro h
  rw [h] at hc
  omega

theorem digit_not_space {c : Char} (h : isDigitB 10 c = true) : isSpaceC c = false := by
  have hc := digit_char_code h
  have h1 : c ≠ ' ' := char_ne_of_code hc (by decide)
  have h2 : c ≠ '\t' := char_ne_of_code hc (by decide)
  have h3 : c ≠ '\n' := char_ne_of_code hc (by decide)
  have h4 : c ≠ '\x0b' := char_ne_of_code hc (by decide)
  have h5 : c ≠ '\x0c' := char_ne_of_code hc (by decide)
  have h6 : c ≠ '\r' := char_ne_of_code hc (by decide)
  simp [isSpaceC, h1, h2, h3, h4, h5, h6]

theorem takeWhile_append_all {p : Char → Bool} :
    ∀ (l r : List Char), (∀ c ∈ l, p c = true) → (∀ c ∈ r.take 1, p c = false) →
      (l ++ r).takeWhile p = l := by
  intro l
  induction l with
  | nil =>
    intro r _ hr
    cases r with
    | nil => rfl
    | cons x t =>
      have := hr x (by simp)
      simp [List.takeWhile_cons_of_neg, this]
  | cons a l' ih =>
    intro r hl hr
    have ha : p a = true := hl a (by simp)
    simp only [List.cons_append, List.takeWhile_cons_of_pos ha]
    rw [ih r (fun c hc => hl c (by simp [hc])) hr]

theorem foldl_digitsVal :
    ∀ (dl : List Nat) (a : Nat), (∀ d ∈ dl, d < 10) →
      List.foldl (fun x c => x * 10 + ((digitVal c).getD 0)) a
        (dl.reverse.map Nat.digitChar) = a * 10 ^ dl.length + Nat.ofDigits 10 dl := by
  intro dl
  induction dl with
  | nil => intro a _; simp
  | cons d t ih =>
    intro a hd
    rw [List.reverse_cons, List.map_append, List.foldl_append]
    rw [ih a (fun x hx => hd x (by simp [hx]))]
    have hdc : digitVal (Nat.digitChar d) = some d := digitVal_digitChar d (hd d (by simp))
    simp only [List.map_cons, List.map_nil, List.foldl_cons, List.foldl_nil, hdc,
      Option.getD_some, Nat.ofDigits_cons, List.length_cons]
    ring

theorem digitsVal_decDigits (v : Nat) : digitsVal 10 (decDigits v) = v := by
  by_cases h0 : v = 0
  · subst h0; decide
  · rw [decDigits_eq_digits v h0]
    unfold digitsVal
    rw [foldl_digitsVal (Nat.digits 10 v) 0
      (fun d hd => Nat.digits_lt_base (by norm_num) hd)]
    simp [Nat.ofDigits_digits]

theorem digitChar_ne_zero : ∀ d, d < 10 → d ≠ 0 → Nat.digitChar d ≠ '0' := by decide

theorem decDigits_head_ne_zero {v : Nat} (h0 : v ≠ 0) :
    ∃ c0 cs, decDigits v = c0 :: cs ∧ c0 ≠ '0' ∧ isDigitB 10 c0 = true := by
  have hne : Nat.digits 10 v ≠ [] := Nat.digits_ne_nil_iff_ne_zero.mpr h0
  rw [decDigits_eq_digits v h0]
  obtain ⟨d, dl, hdl⟩ := List.exists_cons_of_ne_nil (by simpa using hne :
    (Nat.digits 10 v).reverse ≠ [])
  refine ⟨Nat.digitChar d, dl.map Nat.digitChar, by rw [hdl]; simp, ?_, ?_⟩
  · have hdmem : d ∈ Nat.digits 10 v := by
      have : d ∈ (Nat.digits 10 v).reverse := by rw [hdl]; simp
      simpa using this
    have hlt : d < 10 := Nat.digits_lt_base (by norm_num) hdmem
    have hdlast : d = (Nat.digits 10 v).getLast hne := by
      have h1 : (Nat.digits 10 v).reverse.head? = some d := by rw [hdl]; rfl
      rw [List.head?_reverse] at h1
      have h2 := List.getLast?_eq_getLast (Nat.digits 10 v) hne
      rw [h1] at h2
      exact (Option.some.injEq _ _).mp h2
    have hdnz : d ≠ 0 := by
      rw [hdlast]
      exact Nat.getLast_digit_ne_zero 10 h0
    exact digitChar_ne_zero d hlt hdnz
  · have hdmem : d ∈ Nat.digits 10 v := by
      have : d ∈ (Nat.digits 10 v).reverse := by rw [hdl]; simp
      simpa using this
    exact isDigitB_digitChar d (Nat.digits_lt_base (by norm_num) hdmem)

theorem strtoul0_decDigits (v : Nat) (rest : List Char)
    (hrest : rest = [] ∨ rest.head? = some '.')
    (hv : v ≤ 18446744073709551615) :
    strtoul0 (decDigits v ++ rest) = (v, (decDigits v).length) := by
  have hr : ∀ (base : Nat), ∀ c ∈ rest.take 1, isDigitB base c = false := by
    rcases hrest with rfl | hh
    · intro base c hc; simp at hc
    · cases rest with
      | nil => intro base c hc; simp at hc
      | cons r0 rt =>
        have hr0 : r0 = '.' := by simpa using hh
        subst hr0
        intro base c hc
        simp at hc
        subst hc
        exact isDigitB_dot base
  by_cases h0 : v = 0
  · subst h0
    have hD : decDigits 0 = ['0'] := rfl
    rw [hD]
    have hsp : List.dropWhile isSpaceC ('0' :: rest) = '0' :: rest :=
      List.dropWhile_cons_of_neg (by decide)
    have hsign : ¬(('0' :: rest).head? = some '-' ∨ ('0' :: rest).head? = some '+') := by
      rintro (h | h) <;> simp at h
    have hrun : List.takeWhile (isDigitB 8) ('0' :: rest) = ['0'] := by
      have := takeWhile_append_all ['0'] rest (by decide) (hr 8)
      simpa using this
    have hhex : ¬((('0' :: rest).take 2 = ['0', 'x'] ∨ ('0' :: rest).take 2 = ['0', 'X']) ∧
        isDigitB 16 (('0' :: rest).getD 2 ' ') = true) := by
      rintro ⟨htake, _⟩
      rcases hrest with rfl | hh
      · rcases htake with h | h <;> simp at h
      · cases rest with
        | nil => rcases htake with h | h <;> simp at h
        | cons r0 rt =>
          have hr0 : r0 = '.' := by simpa using hh
          subst hr0
          rcases htake with h | h <;> simp [List.take_succ_cons] at h
    simp only [strtoul0, List.singleton_append, hsp]
    rw [if_neg hsign, if_neg hhex]
    simp [hrun, digitsVal, digitVal]
  · obtain ⟨c0, cs, hD, hc0ne, hc0dig⟩ := decDigits_head_ne_zero h0
    have hdigall : ∀ c ∈ c0 :: cs, isDigitB 10 c = true := by
      rw [← hD]; exact decDigits_all_digits v
    have hcode := digit_char_code hc0dig
    have hspace' : isSpaceC c0 = false := digit_not_space hc0dig
    have hminus : c0 ≠ '-' := char_ne_of_code hcode (by decide)
    have hplus : c0 ≠ '+' := char_ne_of_code hcode (by decide)
    have hrun : ((c0 :: cs) ++ rest).takeWhile (isDigitB 10) = c0 :: cs :=
      takeWhile_append_all (c0 :: cs) rest hdigall (hr 10)
    have hrun' : List.takeWhile (isDigitB 10) (c0 :: (cs ++ rest)) = c0 :: cs := by
      simpa using hrun
    have hval : digitsVal 10 (c0 :: cs) = v := by
      rw [← hD]; exact digitsVal_decDigits v
    have hsp : List.dropWhile isSpaceC (c0 :: (cs ++ rest)) = c0 :: (cs ++ rest) :=
      List.dropWhile_cons_of_neg (by rw [hspace']; simp)
    have hsign : ¬((c0 :: (cs ++ rest)).head? = some '-' ∨
        (c0 :: (cs ++ rest)).head? = some '+') := by
      rintro (h | h) <;> simp at h
      · exact hminus h
      · exact hplus h
    have hhex : ¬(((c0 :: (cs ++ rest)).take 2 = ['0', 'x'] ∨
        (c0 :: (cs ++ rest)).take 2 = ['0', 'X']) ∧
        isDigitB 16 ((c0 :: (cs ++ rest)).getD 2 ' ') = true) := by
      rintro ⟨htake, _⟩
      rcases htake with h | h <;>
        · rw [List.take_succ_cons] at h
          have := (List.cons.injEq _ _ _ _).mp h
          exact hc0ne this.1
    have hoct : ¬((c0 :: (cs ++ rest)).head? = some '0') := by
      intro h
      simp at h
      exact hc0ne h
    have hsat : ¬(18446744073709551615 < v) := Nat.not_lt.mpr hv
    have hnegf : ¬(c0 :: (cs ++ rest)).head? = some '-' := by
      intro h; simp at h; exact hminus h
    rw [hD]
    simp only [List.cons_append, strtoul0, hsp]
    rw [if_neg hsign, if_neg hhex]
    simp [hoct, hc0ne, hc0dig, hrun', hval, hsat, hnegf, hminus]

theorem dotted_cons (v : Nat) (t : List Nat) :
    dotted (v :: t) = '.' :: (decDigits v ++ dotted t) := by
  simp [dotted]

theorem oid_aton_loop_acc :
    ∀ (fuel : Nat) (s : List Char) (acc l : List Nat),
      acc.length ≤ 20 → (∀ v ∈ acc, v < 4294967296) →
      oid_aton_loop fuel s acc = some l →
      l.length ≤ 20 ∧ ∀ v ∈ l, v < 4294967296 := by
  intro fuel
  induction fuel with
  | zero =>
    intro s acc l hlen hb h
    cases s with
    | nil =>
      obtain rfl : acc = l := by simpa [oid_aton_loop] using h
      exact ⟨hlen, hb⟩
    | cons c rest => simp [oid_aton_loop] at h
  | succ f ih =>
    intro s acc l hlen hb h
    cases s with
    | nil =>
      obtain rfl : acc = l := by simpa [oid_aton_loop] using h
      exact ⟨hlen, hb⟩
    | cons c rest =>
      simp only [oid_aton_loop] at h
      by_cases h1 : MAX_NR_SUBIDS ≤ acc.length
      · rw [if_pos h1] at h; exact absurd h (by simp)
      rw [if_neg h1] at h
      by_cases h2 : c ≠ '.'
      · rw [if_pos h2] at h; exact absurd h (by simp)
      rw [if_neg h2] at h
      by_cases h3 : rest.isEmpty
      · rw [if_pos h3] at h; exact absurd h (by simp)
      rw [if_neg h3] at h
      refine ih _ _ l ?_ ?_ h
      · have : acc.length < MAX_NR_SUBIDS := not_le.mp h1
        simp only [List.length_append, List.length_cons, List.length_nil]
        have hM : MAX_NR_SUBIDS = 20 := rfl
        omega
      · intro v hv
        rcases List.mem_append.mp hv with hv | hv
        · exact hb v hv
        · have : v = (strtoul0 rest).1 % 4294967296 := by simpa using hv
          subst this
          exact Nat.mod_lt _ (by norm_num)

theorem oid_aton_loop_head {fuel : Nat} {c : Char} {rest : List Char} {acc l : List Nat}
    (h : oid_aton_loop fuel (c :: rest) acc = some l) : c = '.' := by
  cases fuel with
  | zero => simp [oid_aton_loop] at h
  | succ f =>
    simp only [oid_aton_loop] at h
    by_cases h1 : MAX_NR_SUBIDS ≤ acc.length
    · rw [if_pos h1] at h; exact absurd h (by simp)
    rw [if_neg h1] at h
    by_cases h2 : c ≠ '.'
    · rw [if_pos h2] at h; exact absurd h (by simp)
    · push_neg at h2; exact h2

theorem oid_aton_loop_dotted :
    ∀ (l acc : List Nat) (fuel : Nat),
      (dotted l).length ≤ fuel →
      (∀ v ∈ l, v < 4294967296) → acc.length + l.length ≤ 20 →
      oid_aton_loop fuel (dotted l) acc = some (acc ++ l) := by
  intro l
  induction l with
  | nil =>
    intro acc fuel _ _ _
    have hd : dotted [] = [] := rfl
    rw [hd, List.append_nil]
    cases fuel <;> rfl
  | cons v t ih =>
    intro acc fuel hfuel hv hlen
    rw [dotted_cons] at hfuel ⊢
    cases fuel with
    | zero => simp at hfuel
    | succ f =>
      simp only [oid_aton_loop]
      have hvlt : v < 4294967296 := hv v (by simp)
      simp only [List.length_cons] at hlen
      have hstr : strtoul0 (decDigits v ++ dotted t) = (v, (decDigits v).length) := by
        refine strtoul0_decDigits v (dotted t) ?_ (by omega)
        cases t with
        | nil => exact Or.inl rfl
        | cons w t' => right; rw [dotted_cons]; rfl
      rw [if_neg (by
            intro hc
            rw [show MAX_NR_SUBIDS = 20 from rfl] at hc
            omega :
            ¬ MAX_NR_SUBIDS ≤ acc.length),
          if_neg (by simp : ¬('.' ≠ '.')),
          if_neg (by
            have := decDigits_ne_nil v
            cases hD : decDigits v with
            | nil => exact absurd hD this
            | cons a b => simp [hD] :
            ¬(decDigits v ++ dotted t).isEmpty = true)]
      simp only [hstr]
      rw [List.drop_left]
      have hrec := ih (acc ++ [v % 4294967296]) f
        (by simp only [List.length_cons, List.length_append] at hfuel; omega)
        (fun x hx => hv x (by simp [hx]))
        (by simp; omega)
      rw [hrec]
      rw [Nat.mod_eq_of_lt hvlt]
      simp

set_option maxRecDepth 100000

/-- C4 counterexample: the static `oid_ntoa` buffer holds 202 bytes
(`MAX_NR_SUBIDS * 10 + 2`), but an OID of 20 sub-identifiers in the claimed
domain (first two sub-identifiers 0, the rest 4294967295) needs 203 bytes,
so `snprintf` truncates the text and the round trip yields an OID whose
last sub-identifier is 429496729 instead of 4294967295. -/
theorem oid_ntoa_aton_claim_counterexample :
    2 ≤ ([0, 0] ++ List.replicate 18 4294967295 : Oid).length ∧
    ([0, 0] ++ List.replicate 18 4294967295 : Oid).length ≤ MAX_NR_SUBIDS ∧
    (∀ v ∈ ([0, 0] ++ List.replicate 18 4294967295 : Oid), v < 4294967296) ∧
    ([0, 0] ++ List.replicate 18 4294967295 : Oid).getD 0 0 * 40 +
      ([0, 0] ++ List.replicate 18 4294967295 : Oid).getD 1 0 ≤ 255 ∧
    oid_aton (oid_ntoa ([0, 0] ++ List.replicate 18 4294967295)) ≠
      some ([0, 0] ++ List.replicate 18 4294967295) := by
  refine ⟨by decide, by decide, by decide, by decide, ?_⟩
  intro h
  rw [show oid_aton (oid_ntoa ([0, 0] ++ List.replicate 18 4294967295)) =
      some ([0, 0] ++ List.replicate 17 4294967295 ++ [429496729]) from by decide] at h
  exact absurd h (by decide)

/-- C4 (amended): the round trip `oid_aton (oid_ntoa oid) = oid` holds for
every OID with 2 to 20 sub-identifiers (each below 2^32) satisfying
`subid[0]*40 + subid[1] <= 255`, provided additionally that its dotted text
is at most 201 characters, the capacity of `oid_ntoa`'s static buffer
minus the terminator; beyond that the text is truncated and the round trip
fails (see the counterexample). -/
theorem oid_ntoa_aton_round_trip (o : Oid)
    (h2 : 2 ≤ o.length) (h20 : o.length ≤ MAX_NR_SUBIDS)
    (hv : ∀ v ∈ o, v < 4294967296)
    (hfirst : o.getD 0 0 * 40 + o.getD 1 0 ≤ 255)
    (hfits : (dotted o).length ≤ 201) :
    oid_aton (oid_ntoa o) = some o := by
  have hnt : oid_ntoa o = dotted o := by
    unfold oid_ntoa
    exact List.take_of_length_le hfits
  rw [hnt]
  unfold oid_aton
  rw [oid_aton_loop_dotted o [] (dotted o).length (le_refl _) hv
    (by rw [show MAX_NR_SUBIDS = 20 from rfl] at h20; simpa using h20)]
  have hmod : (o.getD 0 0 * 40 + o.getD 1 0) % 4294967296 = o.getD 0 0 * 40 + o.getD 1 0 :=
    Nat.mod_eq_of_lt (by omega)
  rw [List.nil_append, Option.some_bind]
  rw [if_neg (by
    rw [hmod]
    push_neg
    exact ⟨h2, hfirst⟩)]

/-- Witness for the amended C4 theorem at the sysDescr OID. -/
theorem oid_ntoa_aton_round_trip_witness :
    oid_aton (oid_ntoa [1, 3, 6, 1, 2, 1, 1, 1, 0]) = some [1, 3, 6, 1, 2, 1, 1, 1, 0] :=
  oid_ntoa_aton_round_trip [1, 3, 6, 1, 2, 1, 1, 1, 0]
    (by decide) (by decide) (by decide) (by decide) (by decide)

/-- C5 counterexample: `oid_aton` parses numerals with `strtoul(.., 0)`, so
the string ".429496730.0x10" — neither dot-separated decimal (hex numeral)
nor satisfying the claimed `subid[0]*40 + subid[1] <= 255` rule (the check
wraps modulo 2^32: 429496730*40 + 16 = 17179869216) — is accepted instead
of rejected. -/
theorem oid_aton_claim_counterexample :
    oid_aton ".429496730.0x10".toList = some [429496730, 16] ∧
    255 < 429496730 * 40 + 16 ∧
    ¬(∀ c ∈ ".429496730.0x10".toList, c = '.' ∨ ('0' ≤ c ∧ c ≤ '9')) := by
  refine ⟨by decide, by decide, ?_⟩
  intro h
  have := h 'x' (by decide)
  revert this
  decide

/-- C5 (amended): `oid_aton` returns an OID only if the string begins with
a dot and the parsed list has 2 to 20 sub-identifiers (each below 2^32)
with `(subid[0]*40 + subid[1]) mod 2^32 <= 255`; numeral components are
read by `strtoul` with base 0, so hexadecimal, octal, signed, padded and
even empty numerals (parsed as 0) are accepted besides plain decimal, and
the result is always a fully parsed OID, never a partial one. -/
theorem oid_aton_accepts_only (s : List Char) (l : List Nat)
    (h : oid_aton s = some l) :
    s.head? = some '.' ∧ 2 ≤ l.length ∧ l.length ≤ MAX_NR_SUBIDS ∧
    (l.getD 0 0 * 40 + l.getD 1 0) % 4294967296 ≤ 255 ∧
    ∀ v ∈ l, v < 4294967296 := by
  unfold oid_aton at h
  cases hl : oid_aton_loop s.length s [] with
  | none => rw [hl] at h; exact absurd h (by simp)
  | some l' =>
    rw [hl, Option.some_bind] at h
    by_cases hc : l'.length < 2 ∨ 255 < (l'.getD 0 0 * 40 + l'.getD 1 0) % 4294967296
    · rw [if_pos hc] at h; exact absurd h (by simp)
    · rw [if_neg hc] at h
      obtain rfl : l = l' := by
        have := h.symm
        simpa using this
      push_neg at hc
      obtain ⟨hlen2, hrule⟩ := hc
      obtain ⟨hlen20, hbound⟩ :=
        oid_aton_loop_acc s.length s [] l (by simp) (by simp) hl
      refine ⟨?_, by omega, ?_, hrule, hbound⟩
      · cases s with
        | nil =>
          have : ([] : List Nat) = l := by simpa [oid_aton_loop] using hl
          rw [← this] at hlen2
          simp at hlen2
        | cons c rest =>
          rw [oid_aton_loop_head hl]
          rfl
      · rw [show MAX_NR_SUBIDS = 20 from rfl]
        exact hlen20

/-- Witness for the amended C5 theorem at a concrete accepted string. -/
theorem oid_aton_accepts_only_witness :
    ".1.3.6".toList.head? = some '.' ∧ 2 ≤ ([1, 3, 6] : List Nat).length ∧
    ([1, 3, 6] : List Nat).length ≤ MAX_NR_SUBIDS ∧
    (([1, 3, 6] : List Nat).getD 0 0 * 40 + ([1, 3, 6] : List Nat).getD 1 0) %
      4294967296 ≤ 255 ∧
    ∀ v ∈ ([1, 3, 6] : List Nat), v < 4294967296 :=
  oid_aton_accepts_only ".1.3.6".toList [1, 3, 6] (by decide)

/-! BER scalar encoders (mib.c): encode_integer, encode_unsigned,
encode_unsigned64, encode_byte_array, encode_oid, encode_oid_len. -/

/-- A bit window `k..k+j-1` (the C masks such as 0xFF800000) tests whether
a value below `2^(k+j)` reaches `2^k`. -/
theorem and_mask_window (k j v : Nat) (hv : v < 2 ^ (k + j)) :
    (v &&& ((2 ^ j - 1) <<< k) = 0) ↔ v < 2 ^ k := by
  constructor
  · intro h
    by_contra hc
    obtain ⟨i, hik, hbit⟩ := Nat.ge_two_pow_implies_high_bit_true (not_lt.mp hc)
    have hij : i < k + j := by
      by_contra hij
      have : v < 2 ^ i := lt_of_lt_of_le hv (Nat.pow_le_pow_right (by norm_num) (not_lt.mp hij))
      rw [Nat.testBit_lt_two_pow this] at hbit
      exact Bool.false_ne_true hbit
    have hmask : ((2 ^ j - 1) <<< k).testBit i = true := by
      rw [Nat.testBit_shiftLeft, Nat.testBit_two_pow_sub_one]
      simp only [ge_iff_le, hik, decide_True, Bool.true_and]
      exact decide_eq_true (by omega)
    have : (v &&& ((2 ^ j - 1) <<< k)).testBit i = true := by
      rw [Nat.testBit_and, hbit, hmask]
      rfl
    rw [h] at this
    rw [Nat.zero_testBit] at this
    exact Bool.false_ne_true this
  · intro h
    apply Nat.eq_of_testBit_eq
    intro i
    rw [Nat.testBit_and, Nat.zero_testBit]
    by_cases hik : i < k
    · have : ((2 ^ j - 1) <<< k).testBit i = false := by
        rw [Nat.testBit_shiftLeft]
        simp [Nat.not_le.mpr hik]
      rw [this, Bool.and_false]
    · have : v.testBit i = false :=
        Nat.testBit_lt_two_pow
          (lt_of_lt_of_le h (Nat.pow_le_pow_right (by norm_num) (not_lt.mp hik)))
      rw [this, Bool.false_and]

/-- Big-endian value of a byte list, the reading order of the emitted
value octets. -/
def beVal (B : List Nat) : Nat := B.foldl (fun a b => a * 256 + b) 0

theorem beVal_bytes_aux :
    ∀ (L v a : Nat),
      List.foldl (fun x b => x * 256 + b) a
        ((List.range L).map fun j => v >>> (8 * (L - 1 - j)) &&& 255) =
      a * 2 ^ (8 * L) + v % 2 ^ (8 * L) := by
  intro L
  induction L with
  | zero => intro v a; simp [Nat.mod_one]
  | succ n ih =>
    intro v a
    rw [List.range_succ_eq_map, List.map_cons, List.foldl_cons, List.map_map]
    have hfun : ((fun j => v >>> (8 * (n + 1 - 1 - j)) &&& 255) ∘ Nat.succ) =
        (fun j => v >>> (8 * (n - 1 - j)) &&& 255) := by
      funext j
      have h1 : n + 1 - 1 - (j + 1) = n - 1 - j := by omega
      simp only [Function.comp]
      rw [h1]
    rw [hfun, ih]
    have hmod : (v >>> (8 * (n + 1 - 1 - 0))) &&& 255 = v / 2 ^ (8 * n) % 2 ^ 8 := by
      rw [Nat.shiftRight_eq_div_pow]
      rw [show (255 : Nat) = 2 ^ 8 - 1 from rfl, Nat.and_pow_two_sub_one_eq_mod]
      norm_num
    rw [hmod]
    have hsplit : v % 2 ^ (8 * (n + 1)) = v % 2 ^ (8 * n) + 2 ^ (8 * n) * (v / 2 ^ (8 * n) % 2 ^ 8) := by
      rw [show 8 * (n + 1) = 8 * n + 8 from by ring, pow_add]
      exact Nat.mod_mul
    rw [hsplit, show 8 * (n + 1) = 8 * n + 8 from by ring, pow_add]
    ring

theorem beVal_bytes (L v : Nat) :
    beVal ((List.range L).map fun j => v >>> (8 * (L - 1 - j)) &&& 255) =
      v % 2 ^ (8 * L) := by
  unfold beVal
  rw [beVal_bytes_aux]
  simp

/-- `encode_integer` (mib.c:70-93): minimal-length ladder on the signed
value, then big-endian bytes of `(unsigned int)integer_value`. -/
def encode_integer (v : Int) : List Nat :=
  let length : Nat :=
    if v < -8388608 ∨ 8388607 < v then 4
    else if v < -32768 ∨ 32767 < v then 3
    else if v < -128 ∨ 127 < v then 2
    else 1
  let u : Nat := (v % 4294967296).toNat
  2 :: length :: (List.range length).map (fun j => u >>> (8 * (length - 1 - j)) &&& 255)

/-- `encode_unsigned` (mib.c:225-248): bit-mask ladder, then big-endian
bytes; `type` is the BER tag (Counter32 0x41, Gauge32 0x42, TimeTicks 0x43). -/
def encode_unsigned (t : Nat) (v : Nat) : List Nat :=
  let length : Nat :=
    if v &&& 0xFF800000 ≠ 0 then 4
    else if v &&& 0x007F8000 ≠ 0 then 3
    else if v &&& 0x00007F80 ≠ 0 then 2
    else 1
  t :: length :: (List.range length).map (fun j => v >>> (8 * (length - 1 - j)) &&& 255)

/-- `encode_unsigned64` (mib.c:250-281): eight-tier bit-mask ladder for
Counter64. -/
def encode_unsigned64 (t : Nat) (v : Nat) : List Nat :=
  let length : Nat :=
    if v &&& 0xFF80000000000000 ≠ 0 then 8
    else if v &&& 0x007F800000000000 ≠ 0 then 7
    else if v &&& 0x00007F8000000000 ≠ 0 then 6
    else if v &&& 0x0000007F80000000 ≠ 0 then 5
    else if v &&& 0x000000007F800000 ≠ 0 then 4
    else if v &&& 0x00000000007F8000 ≠ 0 then 3
    else if v &&& 0x0000000000007F80 ≠ 0 then 2
    else 1
  t :: length :: (List.range length).map (fun j => v >>> (8 * (length - 1 - j)) &&& 255)

theorem mask_tier (k j v m : Nat) (hm : m = (2 ^ j - 1) <<< k)
    (hv : v < 2 ^ (k + j)) : (v &&& m = 0) ↔ v < 2 ^ k := by
  subst hm; exact and_mask_window k j v hv

theorem isLeast_tier (v L : Nat) (h0 : 0 < L) (hup : v < 2 ^ (8 * L - 1))
    (hlow : 2 ^ (8 * (L - 1) - 1) ≤ v ∨ L = 1) :
    IsLeast {n : Nat | 0 < n ∧ v < 2 ^ (8 * n - 1)} L := by
  constructor
  · exact ⟨h0, hup⟩
  · intro n hn
    rcases hlow with hlow | rfl
    · by_contra hlt
      push_neg at hlt
      have hle : 2 ^ (8 * n - 1) ≤ 2 ^ (8 * (L - 1) - 1) :=
        Nat.pow_le_pow_right (by norm_num) (by omega)
      have := lt_of_lt_of_le hn.2 hle
      omega
    · exact hn.1

theorem isLeast_tier_int (v : Int) (L : Nat) (h0 : 0 < L)
    (hup1 : -(2 ^ (8 * L - 1) : Int) ≤ v) (hup2 : v < 2 ^ (8 * L - 1))
    (hlow : (v < -(2 ^ (8 * (L - 1) - 1) : Int) ∨ (2 ^ (8 * (L - 1) - 1) : Int) ≤ v) ∨ L = 1) :
    IsLeast {n : Nat | 0 < n ∧ -(2 ^ (8 * n - 1) : Int) ≤ v ∧ v < 2 ^ (8 * n - 1)} L := by
  constructor
  · exact ⟨h0, hup1, hup2⟩
  · intro n hn
    rcases hlow with hlow | rfl
    · by_contra hlt
      push_neg at hlt
      have hle : (2 : Int) ^ (8 * n - 1) ≤ 2 ^ (8 * (L - 1) - 1) := by
        apply pow_le_pow_right₀ (by norm_num)
        omega
      rcases hlow with hlow | hlow
      · have := le_trans (neg_le_neg hle) hn.2.1
        omega
      · have := lt_of_lt_of_le hn.2.2 hle
        omega
    · exact hn.1

theorem encode_unsigned_spec (t v : Nat) (hv : v < 4294967296) :
    ∃ B, encode_unsigned t v = t :: B.length :: B ∧ beVal B = v ∧
      (v < 2147483648 → IsLeast {n : Nat | 0 < n ∧ v < 2 ^ (8 * n - 1)} B.length) ∧
      (2147483648 ≤ v → B.length = 4) := by
  have p7 : (2:Nat) ^ 7 = 128 := by norm_num
  have p15 : (2:Nat) ^ 15 = 32768 := by norm_num
  have p23 : (2:Nat) ^ 23 = 8388608 := by norm_num
  have p32 : (2:Nat) ^ (23 + 9) = 4294967296 := by norm_num
  have p158 : (2:Nat) ^ (15 + 8) = 8388608 := by norm_num
  have p78 : (2:Nat) ^ (7 + 8) = 32768 := by norm_num
  have m1 := mask_tier 23 9 v 0xFF800000 (by decide) (by omega)
  by_cases c23 : v < 8388608
  · have hm1 : v &&& 0xFF800000 = 0 := m1.mpr (by omega)
    have m2 := mask_tier 15 8 v 0x007F8000 (by decide) (by omega)
    by_cases c15 : v < 32768
    · have hm2 : v &&& 0x007F8000 = 0 := m2.mpr (by omega)
      have m3 := mask_tier 7 8 v 0x00007F80 (by decide) (by omega)
      by_cases c7 : v < 128
      · have hm3 : v &&& 0x00007F80 = 0 := m3.mpr (by omega)
        refine ⟨(List.range 1).map (fun j => v >>> (8 * (1 - 1 - j)) &&& 255),
          ?_, ?_, ?_, ?_⟩
        · simp only [encode_unsigned, if_neg (not_not_intro hm1),
            if_neg (not_not_intro hm2), if_neg (not_not_intro hm3),
            List.length_map, List.length_range]
        · rw [beVal_bytes]
          exact Nat.mod_eq_of_lt (by norm_num; omega)
        · intro _
          rw [List.length_map, List.length_range]
          exact isLeast_tier v 1 (by norm_num) (by norm_num; omega) (Or.inr rfl)
        · intro h31; omega
      · have hm3 : v &&& 0x00007F80 ≠ 0 := fun h0 => c7 (m3.mp h0)
        refine ⟨(List.range 2).map (fun j => v >>> (8 * (2 - 1 - j)) &&& 255),
          ?_, ?_, ?_, ?_⟩
        · simp only [encode_unsigned, if_neg (not_not_intro hm1),
            if_neg (not_not_intro hm2), if_pos hm3,
            List.length_map, List.length_range]
        · rw [beVal_bytes]
          exact Nat.mod_eq_of_lt (by norm_num; omega)
        · intro _
          rw [List.length_map, List.length_range]
          exact isLeast_tier v 2 (by norm_num) (by norm_num; omega)
            (Or.inl (by norm_num; omega))
        · intro h31; omega
    · have hm2 : v &&& 0x007F8000 ≠ 0 := fun h0 => c15 (m2.mp h0)
      refine ⟨(List.range 3).map (fun j => v >>> (8 * (3 - 1 - j)) &&& 255),
        ?_, ?_, ?_, ?_⟩
      · simp only [encode_unsigned, if_neg (not_not_intro hm1), if_pos hm2,
          List.length_map, List.length_range]
      · rw [beVal_bytes]
        exact Nat.mod_eq_of_lt (by norm_num; omega)
      · intro _
        rw [List.length_map, List.length_range]
        exact isLeast_tier v 3 (by norm_num) (by norm_num; omega)
          (Or.inl (by norm_num; omega))
      · intro h31; omega
  · have hm1 : v &&& 0xFF800000 ≠ 0 := fun h0 => c23 (m1.mp h0)
    refine ⟨(List.range 4).map (fun j => v >>> (8 * (4 - 1 - j)) &&& 255),
      ?_, ?_, ?_, ?_⟩
    · simp only [encode_unsigned, if_pos hm1, List.length_map, List.length_range]
    · rw [beVal_bytes]
      exact Nat.mod_eq_of_lt (by norm_num; omega)
    · intro h31
      rw [List.length_map, List.length_range]
      exact isLeast_tier v 4 (by norm_num) (by norm_num; omega)
        (Or.inl (by norm_num; omega))
    · intro _
      rw [List.length_map, List.length_range]

theorem encode_unsigned64_spec (t v : Nat) (hv : v < 18446744073709551616) :
    ∃ B, encode_unsigned64 t v = t :: B.length :: B ∧ beVal B = v ∧
      (v < 9223372036854775808 → IsLeast {n : Nat | 0 < n ∧ v < 2 ^ (8 * n - 1)} B.length) ∧
      (9223372036854775808 ≤ v → B.length = 8) := by
  have pw7 : (2:Nat) ^ 7 = 128 := by norm_num
  have pw15 : (2:Nat) ^ 15 = 32768 := by norm_num
  have pw23 : (2:Nat) ^ 23 = 8388608 := by norm_num
  have pw31 : (2:Nat) ^ 31 = 2147483648 := by norm_num
  have pw39 : (2:Nat) ^ 39 = 549755813888 := by norm_num
  have pw47 : (2:Nat) ^ 47 = 140737488355328 := by norm_num
  have pw55 : (2:Nat) ^ 55 = 36028797018963968 := by norm_num
  have pw64 : (2:Nat) ^ 64 = 18446744073709551616 := by norm_num
  have m8 := mask_tier 55 9 v 0xFF80000000000000 (by decide) (by omega)
  by_cases c55 : v < 36028797018963968
  · have hm8 : v &&& 0xFF80000000000000 = 0 := m8.mpr (by omega)
    have m7 := mask_tier 47 8 v 0x007F800000000000 (by decide) (by omega)
    by_cases c47 : v < 140737488355328
    · have hm7 : v &&& 0x007F800000000000 = 0 := m7.mpr (by omega)
      have m6 := mask_tier 39 8 v 0x00007F8000000000 (by decide) (by omega)
      by_cases c39 : v < 549755813888
      · have hm6 : v &&& 0x00007F8000000000 = 0 := m6.mpr (by omega)
        have m5 := mask_tier 31 8 v 0x0000007F80000000 (by decide) (by omega)
        by_cases c31 : v < 2147483648
        · have hm5 : v &&& 0x0000007F80000000 = 0 := m5.mpr (by omega)
          have m4 := mask_tier 23 8 v 0x000000007F800000 (by decide) (by omega)
          by_cases c23 : v < 8388608
          · have hm4 : v &&& 0x000000007F800000 = 0 := m4.mpr (by omega)
            have m3 := mask_tier 15 8 v 0x00000000007F8000 (by decide) (by omega)
            by_cases c15 : v < 32768
            · have hm3 : v &&& 0x00000000007F8000 = 0 := m3.mpr (by omega)
              have m2 := mask_tier 7 8 v 0x0000000000007F80 (by decide) (by omega)
              by_cases c7 : v < 128
              · have hm2 : v &&& 0x0000000000007F80 = 0 := m2.mpr (by omega)
                refine ⟨(List.range 1).map (fun j => v >>> (8 * (1 - 1 - j)) &&& 255), ?_, ?_, ?_, ?_⟩
                · simp only [encode_unsigned64, if_neg (not_not_intro hm8), if_neg (not_not_intro hm7), if_neg (not_not_intro hm6), if_neg (not_not_intro hm5), if_neg (not_not_intro hm4), if_neg (not_not_intro hm3), if_neg (not_not_intro hm2), List.length_map, List.length_range]
                · rw [beVal_bytes]
                  exact Nat.mod_eq_of_lt (by norm_num; omega)
                · intro _
                  rw [List.length_map, List.length_range]
                  exact isLeast_tier v 1 (by norm_num) (by norm_num; omega) (Or.inr rfl)
                · intro h63; omega
              · have hm2 : v &&& 0x0000000000007F80 ≠ 0 := fun h0 => c7 (m2.mp h0)
                refine ⟨(List.range 2).map (fun j => v >>> (8 * (2 - 1 - j)) &&& 255), ?_, ?_, ?_, ?_⟩
                · simp only [encode_unsigned64, if_neg (not_not_intro hm8), if_neg (not_not_intro hm7), if_neg (not_not_intro hm6), if_neg (not_not_intro hm5), if_neg (not_not_intro hm4), if_neg (not_not_intro hm3), if_pos hm2, List.length_map, List.length_range]
                · rw [beVal_bytes]
                  exact Nat.mod_eq_of_lt (by norm_num; omega)
                · intro _
                  rw [List.length_map, List.length_range]
                  exact isLeast_tier v 2 (by norm_num) (by norm_num; omega) (Or.inl (by norm_num; omega))
                · intro h63; omega
            · have hm3 : v &&& 0x00000000007F8000 ≠ 0 := fun h0 => c15 (m3.mp h0)
              refine ⟨(List.range 3).map (fun j => v >>> (8 * (3 - 1 - j)) &&& 255), ?_, ?_, ?_, ?_⟩
              · simp only [encode_unsigned64, if_neg (not_not_intro hm8), if_neg (not_not_intro hm7), if_neg (not_not_intro hm6), if_neg (not_not_intro hm5), if_neg (not_not_intro hm4), if_pos hm3, List.length_map, List.length_range]
              · rw [beVal_bytes]
                exact Nat.mod_eq_of_lt (by norm_num; omega)
              · intro _
                rw [List.length_map, List.length_range]
                exact isLeast_tier v 3 (by norm_num) (by norm_num; omega) (Or.inl (by norm_num; omega))
              · intro h63; omega
          · have hm4 : v &&& 0x000000007F800000 ≠ 0 := fun h0 => c23 (m4.mp h0)
            refine ⟨(List.range 4).map (fun j => v >>> (8 * (4 - 1 - j)) &&& 255), ?_, ?_, ?_, ?_⟩
            · simp only [encode_unsigned64, if_neg (not_not_intro hm8), if_neg (not_not_intro hm7), if_neg (not_not_intro hm6), if_neg (not_not_intro hm5), if_pos hm4, List.length_map, List.length_range]
            · rw [beVal_bytes]
              exact Nat.mod_eq_of_lt (by norm_num; omega)
            · intro _
              rw [List.length_map, List.length_range]
              exact isLeast_tier v 4 (by norm_num) (by norm_num; omega) (Or.inl (by norm_num; omega))
            · intro h63; omega
        · have hm5 : v &&& 0x0000007F80000000 ≠ 0 := fun h0 => c31 (m5.mp h0)
          refine ⟨(List.range 5).map (fun j => v >>> (8 * (5 - 1 - j)) &&& 255), ?_, ?_, ?_, ?_⟩
          · simp only [encode_unsigned64, if_neg (not_not_intro hm8), if_neg (not_not_intro hm7), if_neg (not_not_intro hm6), if_pos hm5, List.length_map, List.length_range]
          · rw [beVal_bytes]
            exact Nat.mod_eq_of_lt (by norm_num; omega)
          · intro _
            rw [List.length_map, List.length_range]
            exact isLeast_tier v 5 (by norm_num) (by norm_num; omega) (Or.inl (by norm_num; omega))
          · intro h63; omega
      · have hm6 : v &&& 0x00007F8000000000 ≠ 0 := fun h0 => c39 (m6.mp h0)
        refine ⟨(List.range 6).map (fun j => v >>> (8 * (6 - 1 - j)) &&& 255), ?_, ?_, ?_, ?_⟩
        · simp only [encode_unsigned64, if_neg (not_not_intro hm8), if_neg (not_not_intro hm7), if_pos hm6, List.length_map, List.length_range]
        · rw [beVal_bytes]
          exact Nat.mod_eq_of_lt (by norm_num; omega)
        · intro _
          rw [List.length_map, List.length_range]
          exact isLeast_tier v 6 (by norm_num) (by norm_num; omega) (Or.inl (by norm_num; omega))
        · intro h63; omega
    · have hm7 : v &&& 0x007F800000000000 ≠ 0 := fun h0 => c47 (m7.mp h0)
      refine ⟨(List.range 7).map (fun j => v >>> (8 * (7 - 1 - j)) &&& 255), ?_, ?_, ?_, ?_⟩
      · simp only [encode_unsigned64, if_neg (not_not_intro hm8), if_pos hm7, List.length_map, List.length_range]
      · rw [beVal_bytes]
        exact Nat.mod_eq_of_lt (by norm_num; omega)
      · intro _
        rw [List.length_map, List.length_range]
        exact isLeast_tier v 7 (by norm_num) (by norm_num; omega) (Or.inl (by norm_num; omega))
      · intro h63; omega
  · have hm8 : v &&& 0xFF80000000000000 ≠ 0 := fun h0 => c55 (m8.mp h0)
    refine ⟨(List.range 8).map (fun j => v >>> (8 * (8 - 1 - j)) &&& 255), ?_, ?_, ?_, ?_⟩
    · simp only [encode_unsigned64, if_pos hm8, List.length_map, List.length_range]
    · rw [beVal_bytes]
      exact Nat.mod_eq_of_lt (by norm_num; omega)
    · intro h63
      rw [List.length_map, List.length_range]
      exact isLeast_tier v 8 (by norm_num) (by norm_num; omega) (Or.inl (by norm_num; omega))
    · intro _
      rw [List.length_map, List.length_range]

theorem encode_integer_beVal (v : Int) (L : Nat) (hdvd : ((2:Int) ^ (8 * L)) ∣ 4294967296) :
    ((beVal ((List.range L).map
        (fun j => (v % 4294967296).toNat >>> (8 * (L - 1 - j)) &&& 255)) : Nat) : Int) =
      v % 2 ^ (8 * L) := by
  rw [beVal_bytes]
  have hnn : (0:Int) ≤ v % 4294967296 := Int.emod_nonneg v (by norm_num)
  rw [Int.ofNat_emod]
  push_cast
  rw [Int.toNat_of_nonneg hnn]
  rw [Int.emod_emod_of_dvd v hdvd]

theorem encode_integer_spec (v : Int) (hlo : -2147483648 ≤ v) (hhi : v < 2147483648) :
    ∃ B, encode_integer v = 2 :: B.length :: B ∧
      IsLeast {n : Nat | 0 < n ∧ -(2 ^ (8 * n - 1) : Int) ≤ v ∧ v < 2 ^ (8 * n - 1)}
        B.length ∧
      (beVal B : Int) = v % 2 ^ (8 * B.length) := by
  by_cases c24 : v < -8388608 ∨ 8388607 < v
  · refine ⟨(List.range 4).map
      (fun j => (v % 4294967296).toNat >>> (8 * (4 - 1 - j)) &&& 255), ?_, ?_, ?_⟩
    · simp only [encode_integer, if_pos c24, List.length_map, List.length_range]
    · rw [List.length_map, List.length_range]
      exact isLeast_tier_int v 4 (by norm_num) (by norm_num; omega) (by norm_num; omega)
        (Or.inl (by norm_num; omega))
    · rw [List.length_map, List.length_range]
      exact encode_integer_beVal v 4 (by norm_num)
  · by_cases c16 : v < -32768 ∨ 32767 < v
    · refine ⟨(List.range 3).map
        (fun j => (v % 4294967296).toNat >>> (8 * (3 - 1 - j)) &&& 255), ?_, ?_, ?_⟩
      · simp only [encode_integer, if_neg c24, if_pos c16, List.length_map,
          List.length_range]
      · rw [List.length_map, List.length_range]
        push_neg at c24
        exact isLeast_tier_int v 3 (by norm_num) (by norm_num; omega) (by norm_num; omega)
          (Or.inl (by norm_num; omega))
      · rw [List.length_map, List.length_range]
        exact encode_integer_beVal v 3 (by norm_num)
    · by_cases c8 : v < -128 ∨ 127 < v
      · refine ⟨(List.range 2).map
          (fun j => (v % 4294967296).toNat >>> (8 * (2 - 1 - j)) &&& 255), ?_, ?_, ?_⟩
        · simp only [encode_integer, if_neg c24, if_neg c16, if_pos c8,
            List.length_map, List.length_range]
        · rw [List.length_map, List.length_range]
          push_neg at c16
          exact isLeast_tier_int v 2 (by norm_num) (by norm_num; omega)
            (by norm_num; omega) (Or.inl (by norm_num; omega))
        · rw [List.length_map, List.length_range]
          exact encode_integer_beVal v 2 (by norm_num)
      · refine ⟨(List.range 1).map
          (fun j => (v % 4294967296).toNat >>> (8 * (1 - 1 - j)) &&& 255), ?_, ?_, ?_⟩
        · simp only [encode_integer, if_neg c24, if_neg c16, if_neg c8,
            List.length_map, List.length_range]
        · rw [List.length_map, List.length_range]
          push_neg at c8
          exact isLeast_tier_int v 1 (by norm_num) (by norm_num; omega)
            (by norm_num; omega) (Or.inr rfl)
        · rw [List.length_map, List.length_range]
          exact encode_integer_beVal v 1 (by norm_num)

/-- C6 counterexample: `encode_unsigned` does not emit the minimal number
of octets representing the value in unsigned form: for the value 128 the
minimal unsigned representation is one octet (0x80), but the code emits two
octets (0x00 0x80) — it pads with a leading zero whenever the top bit of
the minimal unsigned form is set (BER positive-INTEGER convention). -/
theorem encode_unsigned_claim_counterexample :
    encode_unsigned 65 128 = [65, 2, 0, 128] ∧
    ¬ IsLeast {n : Nat | 0 < n ∧ (128 : Nat) < 2 ^ (8 * n)} 2 := by
  refine ⟨by decide, ?_⟩
  rintro ⟨hmem, hlb⟩
  have h1 := hlb (show 1 ∈ {n : Nat | 0 < n ∧ (128 : Nat) < 2 ^ (8 * n)} from
    ⟨by norm_num, by norm_num⟩)
  omega

/-- C6 (amended): `encode_integer` emits the minimal number of octets (1-4)
representing the value in two's-complement, big-endian after the type tag
and octet count. `encode_unsigned` and `encode_unsigned64` emit the minimal
number of octets representing the value as a *nonnegative* two's-complement
integer (a leading zero octet when the minimal unsigned form has its top
bit set) — 1-4 and 1-8 octets — except that values at or above 2^31
(resp. 2^63) are emitted in exactly 4 (resp. 8) octets; the value octets
read back big-endian to the encoded value. -/
theorem encode_scalar_minimal :
    (∀ v : Int, -2147483648 ≤ v → v < 2147483648 →
      ∃ B, encode_integer v = 2 :: B.length :: B ∧
        IsLeast {n : Nat | 0 < n ∧ -(2 ^ (8 * n - 1) : Int) ≤ v ∧ v < 2 ^ (8 * n - 1)}
          B.length ∧
        (beVal B : Int) = v % 2 ^ (8 * B.length)) ∧
    (∀ t v : Nat, v < 4294967296 →
      ∃ B, encode_unsigned t v = t :: B.length :: B ∧ beVal B = v ∧
        (v < 2147483648 → IsLeast {n : Nat | 0 < n ∧ v < 2 ^ (8 * n - 1)} B.length) ∧
        (2147483648 ≤ v → B.length = 4)) ∧
    (∀ t v : Nat, v < 18446744073709551616 →
      ∃ B, encode_unsigned64 t v = t :: B.length :: B ∧ beVal B = v ∧
        (v < 9223372036854775808 →
          IsLeast {n : Nat | 0 < n ∧ v < 2 ^ (8 * n - 1)} B.length) ∧
        (9223372036854775808 ≤ v → B.length = 8)) :=
  ⟨fun v h1 h2 => encode_integer_spec v h1 h2,
   fun t v hv => encode_unsigned_spec t v hv,
   fun t v hv => encode_unsigned64_spec t v hv⟩

/-- Witness for the amended C6 theorem at concrete values. -/
theorem encode_scalar_minimal_witness :
    (∃ B, encode_integer (-130) = 2 :: B.length :: B ∧
      IsLeast {n : Nat | 0 < n ∧ -(2 ^ (8 * n - 1) : Int) ≤ -130 ∧
        (-130 : Int) < 2 ^ (8 * n - 1)} B.length ∧
      (beVal B : Int) = -130 % 2 ^ (8 * B.length)) ∧
    (∃ B, encode_unsigned 65 300 = 65 :: B.length :: B ∧ beVal B = 300 ∧
      (300 < 2147483648 → IsLeast {n : Nat | 0 < n ∧ 300 < 2 ^ (8 * n - 1)} B.length) ∧
      (2147483648 ≤ 300 → B.length = 4)) ∧
    (∃ B, encode_unsigned64 70 4294967296 = 70 :: B.length :: B ∧
      beVal B = 4294967296 ∧
      (4294967296 < 9223372036854775808 →
        IsLeast {n : Nat | 0 < n ∧ 4294967296 < 2 ^ (8 * n - 1)} B.length) ∧
      (9223372036854775808 ≤ 4294967296 → B.length = 8)) :=
  ⟨encode_scalar_minimal.1 (-130) (by norm_num) (by norm_num),
   encode_scalar_minimal.2.1 65 300 (by norm_num),
   encode_scalar_minimal.2.2 70 4294967296 (by norm_num)⟩

/-- The `data_t` buffer descriptor (snmpbug.h): byte buffer, capacity, and
length of the encoding written. The model keeps exactly the written bytes
in `buffer`; stale bytes past `encoded_length` in the C array are dropped. -/
structure DataT where
  buffer : List Nat
  max_length : Nat
  encoded_length : Nat

/-- `encode_byte_array` (mib.c:95-133): grow the buffer by reallocation
when `len + 4` exceeds `max_length`, then fail on lengths above 0xFFFF,
else write the OCTET STRING TLV with short/0x81/0x82 length form. -/
def encode_byte_array (d : DataT) (s : List Nat) : Int × DataT :=
  let d1 := if d.max_length < s.length + 4 then
    { d with max_length := s.length + 4 } else d
  if 65535 < s.length then (-1, d1)
  else
    let hdr : List Nat :=
      if 255 < s.length then [4, 0x82, s.length >>> 8 &&& 255, s.length &&& 255]
      else if 127 < s.length then [4, 0x81, s.length &&& 255]
      else [4, s.length &&& 127]
    (0, { d1 with buffer := hdr ++ s, encoded_length := (hdr ++ s).length })

/-- C7: `encode_byte_array` emits the length field in short form for
lengths up to 127, as 0x81 plus one octet for 128-255, as 0x82 plus two
big-endian octets for 256-65535; for longer strings it reports a fatal
encoding failure (-1) leaving the previous encoding untouched; and whenever
`len + 4` exceeds the pre-sized buffer the capacity is grown to `len + 4`
by explicit reallocation before any write. -/
theorem encode_byte_array_correct (d : DataT) (s : List Nat) :
    (encode_byte_array d s).2.max_length = max d.max_length (s.length + 4) ∧
    (s.length ≤ 127 → (encode_byte_array d s).1 = 0 ∧
      (encode_byte_array d s).2.buffer = 4 :: s.length :: s ∧
      (encode_byte_array d s).2.encoded_length = s.length + 2) ∧
    (128 ≤ s.length → s.length ≤ 255 → (encode_byte_array d s).1 = 0 ∧
      (encode_byte_array d s).2.buffer = 4 :: 129 :: s.length :: s ∧
      (encode_byte_array d s).2.encoded_length = s.length + 3) ∧
    (256 ≤ s.length → s.length ≤ 65535 → (encode_byte_array d s).1 = 0 ∧
      (encode_byte_array d s).2.buffer =
        4 :: 130 :: (s.length / 256) :: (s.length % 256) :: s ∧
      (encode_byte_array d s).2.encoded_length = s.length + 4) ∧
    (65536 ≤ s.length → (encode_byte_array d s).1 = -1 ∧
      (encode_byte_array d s).2.buffer = d.buffer ∧
      (encode_byte_array d s).2.encoded_length = d.encoded_length) := by
  have hand127 : s.length ≤ 127 → s.length &&& 127 = s.length := by
    intro h
    rw [show (127 : Nat) = 2 ^ 7 - 1 from rfl, Nat.and_pow_two_sub_one_eq_mod]
    exact Nat.mod_eq_of_lt (by omega)
  have hand255 : s.length ≤ 255 → s.length &&& 255 = s.length := by
    intro h
    rw [show (255 : Nat) = 2 ^ 8 - 1 from rfl, Nat.and_pow_two_sub_one_eq_mod]
    exact Nat.mod_eq_of_lt (by omega)
  have hshift : s.length ≤ 65535 → s.length >>> 8 &&& 255 = s.length / 256 := by
    intro h
    rw [Nat.shiftRight_eq_div_pow,
      show (255 : Nat) = 2 ^ 8 - 1 from rfl, Nat.and_pow_two_sub_one_eq_mod]
    omega
  have hand255' : s.length ≤ 65535 → s.length &&& 255 = s.length % 256 := by
    intro _
    rw [show (255 : Nat) = 2 ^ 8 - 1 from rfl, Nat.and_pow_two_sub_one_eq_mod]
  refine ⟨?_, ?_, ?_, ?_, ?_⟩
  · by_cases hg : d.max_length < s.length + 4 <;>
      by_cases hb : 65535 < s.length <;>
        simp [encode_byte_array, hg, hb] <;> omega
  · intro h7
    have hb : ¬ 65535 < s.length := by omega
    have h255 : ¬ 255 < s.length := by omega
    have h127 : ¬ 127 < s.length := by omega
    simp [encode_byte_array, hb, h255, h127, hand127 (by omega)]
  · intro h7 h8
    have hb : ¬ 65535 < s.length := by omega
    have h255 : ¬ 255 < s.length := by omega
    have h127 : 127 < s.length := by omega
    simp [encode_byte_array, hb, h255, h127, hand255 (by omega)]
  · intro h8 h16
    have hb : ¬ 65535 < s.length := by omega
    have h255 : 255 < s.length := by omega
    simp [encode_byte_array, hb, h255, hshift (by omega), hand255' (by omega)]
  · intro h16
    have hb : 65535 < s.length := by omega
    by_cases hg : d.max_length < s.length + 4 <;>
      simp [encode_byte_array, hb, hg]

/-- Witness for the C7 theorem on a concrete buffer and byte string. -/
theorem encode_byte_array_correct_witness :
    (encode_byte_array ⟨[4, 0, 0], 7, 3⟩ [116, 101, 115, 116]).2.max_length =
      max 7 (([116, 101, 115, 116] : List Nat).length + 4) ∧
    (([116, 101, 115, 116] : List Nat).length ≤ 127 →
      (encode_byte_array ⟨[4, 0, 0], 7, 3⟩ [116, 101, 115, 116]).1 = 0 ∧
      (encode_byte_array ⟨[4, 0, 0], 7, 3⟩ [116, 101, 115, 116]).2.buffer =
        4 :: ([116, 101, 115, 116] : List Nat).length :: [116, 101, 115, 116] ∧
      (encode_byte_array ⟨[4, 0, 0], 7, 3⟩ [116, 101, 115, 116]).2.encoded_length =
        ([116, 101, 115, 116] : List Nat).length + 2) ∧
    (128 ≤ ([116, 101, 115, 116] : List Nat).length →
      ([116, 101, 115, 116] : List Nat).length ≤ 255 →
      (encode_byte_array ⟨[4, 0, 0], 7, 3⟩ [116, 101, 115, 116]).1 = 0 ∧
      (encode_byte_array ⟨[4, 0, 0], 7, 3⟩ [116, 101, 115, 116]).2.buffer =
        4 :: 129 :: ([116, 101, 115, 116] : List Nat).length :: [116, 101, 115, 116] ∧
      (encode_byte_array ⟨[4, 0, 0], 7, 3⟩ [116, 101, 115, 116]).2.encoded_length =
        ([116, 101, 115, 116] : List Nat).length + 3) ∧
    (256 ≤ ([116, 101, 115, 116] : List Nat).length →
      ([116, 101, 115, 116] : List Nat).length ≤ 65535 →
      (encode_byte_array ⟨[4, 0, 0], 7, 3⟩ [116, 101, 115, 116]).1 = 0 ∧
      (encode_byte_array ⟨[4, 0, 0], 7, 3⟩ [116, 101, 115, 116]).2.buffer =
        4 :: 130 :: (([116, 101, 115, 116] : List Nat).length / 256) ::
          (([116, 101, 115, 116] : List Nat).length % 256) :: [116, 101, 115, 116] ∧
      (encode_byte_array ⟨[4, 0, 0], 7, 3⟩ [116, 101, 115, 116]).2.encoded_length =
        ([116, 101, 115, 116] : List Nat).length + 4) ∧
    (65536 ≤ ([116, 101, 115, 116] : List Nat).length →
      (encode_byte_array ⟨[4, 0, 0], 7, 3⟩ [116, 101, 115, 116]).1 = -1 ∧
      (encode_byte_array ⟨[4, 0, 0], 7, 3⟩ [116, 101, 115, 116]).2.buffer =
        (⟨[4, 0, 0], 7, 3⟩ : DataT).buffer ∧
      (encode_byte_array ⟨[4, 0, 0], 7, 3⟩ [116, 101, 115, 116]).2.encoded_length =
        (⟨[4, 0, 0], 7, 3⟩ : DataT).encoded_length) :=
  encode_byte_array_correct ⟨[4, 0, 0], 7, 3⟩ [116, 101, 115, 116]

/-- Base-128 length ladder of `encode_oid_len` (mib.c:411-422): octets
needed for one sub-identifier. -/
def subidLen (v : Nat) : Nat :=
  if 2 ^ 28 ≤ v then 5
  else if 2 ^ 21 ≤ v then 4
  else if 2 ^ 14 ≤ v then 3
  else if 2 ^ 7 ≤ v then 2
  else 1

/-- Base-128 length ladder as written independently inside `encode_oid`
(mib.c:169-180 and 200-210); textually the same thresholds. -/
def subidLen_enc (v : Nat) : Nat :=
  if 2 ^ 28 ≤ v then 5
  else if 2 ^ 21 ≤ v then 4
  else if 2 ^ 14 ≤ v then 3
  else if 2 ^ 7 ≤ v then 2
  else 1

/-- The C `(short)` cast of an unsigned 32-bit value (mib.c:437). -/
def castShort (v : Nat) : Int :=
  if v % 65536 < 32768 then (v % 65536 : Int) else (v % 65536 : Int) - 65536

/-- `encode_oid_len` (mib.c:406-440): value length is 1 (for the packed
first two subids) plus the ladder sum over subids 2..; fail above 0xFFFF,
else add the 4/3/2-octet type+length header and store through a `(short)`
cast. -/
def encode_oid_len (o : Oid) : Option Int :=
  let len := 1 + ((o.drop 2).map subidLen).sum
  if 65535 < len then none
  else some (castShort (if 255 < len then len + 4
    else if 127 < len then len + 3 else len + 2))

/-- The base-128 octets `encode_oid` writes for one sub-identifier
(mib.c:212-217): high-to-low 7-bit groups, continuation bit 0x80 on all
but the last. -/
def subidBytes (v : Nat) : List Nat :=
  (List.range (subidLen_enc v)).map (fun j =>
    let k := subidLen_enc v - 1 - j
    if k = 0 then (v >>> (7 * k)) &&& 0x7F
    else ((v >>> (7 * k)) &&& 0x7F) ||| 0x80)

/-- `encode_oid` (mib.c:161-223): type octet 0x06, the 0x82/0x81/short
length field for the value length, the packed first two subids (written
through an `unsigned char`, hence mod 256), then the base-128 octets of
the remaining subids; returns the bytes written (encoded_length is their
count). -/
def encode_oid (o : Oid) : Option (List Nat) :=
  let len := 1 + ((o.drop 2).map subidLen_enc).sum
  if 65535 < len then none
  else
    let lenBytes : List Nat :=
      if 255 < len then [0x82, (len >>> 8) &&& 0xFF, len &&& 0xFF]
      else if 127 < len then [0x81, len &&& 0xFF]
      else [len &&& 0x7F]
    some ([6] ++ lenBytes ++ [(o.getD 0 0 * 40 + o.getD 1 0) % 256] ++
      ((o.drop 2).map subidBytes).flatten)

theorem subidLen_enc_eq (v : Nat) : subidLen_enc v = subidLen v := rfl

theorem subidBytes_length (v : Nat) : (subidBytes v).length = subidLen v := by
  simp [subidBytes, subidLen_enc_eq]

theorem subidLen_le_five (v : Nat) : subidLen v ≤ 5 := by
  unfold subidLen
  split <;> [omega; split <;> [omega; split <;> [omega; split <;> omega]]]

/-- C10: on every OID with 2 to 20 sub-identifiers the length
precomputation of `encode_oid_len` agrees with the bytes actually
written by `encode_oid`: the two textually duplicated base-128 ladders
compute the same octet count for every sub-identifier, both functions
succeed (the value length is at most 1 + 18*5 = 91 octets, far below the
0xFFFF cap, so the short length form is used), and the stored
encoded_length equals the length of the emitted byte string. -/
theorem encode_oid_len_agrees (o : Oid) (h2 : 2 ≤ o.length)
    (h20 : o.length ≤ MAX_NR_SUBIDS) :
    (∀ v, subidLen_enc v = subidLen v) ∧
    ∃ bytes n, encode_oid o = some bytes ∧ encode_oid_len o = some n ∧
      (bytes.length : Int) = n := by
  refine ⟨fun _ => rfl, ?_⟩
  set S := ((o.drop 2).map subidLen).sum with hS
  have hmapeq : (o.drop 2).map subidLen_enc = (o.drop 2).map subidLen :=
    List.map_congr_left (fun v _ => subidLen_enc_eq v)
  have hlen : ((o.drop 2).map subidLen).length = o.length - 2 := by
    simp [List.length_drop]
  have hSle : S ≤ 90 := by
    have hb : ∀ x ∈ (o.drop 2).map subidLen, x ≤ 5 := by
      intro x hx
      obtain ⟨v, _, rfl⟩ := List.mem_map.mp hx
      exact subidLen_le_five v
    have := List.sum_le_card_nsmul ((o.drop 2).map subidLen) 5 hb
    rw [hlen, smul_eq_mul] at this
    rw [show MAX_NR_SUBIDS = 20 from rfl] at h20
    omega
  have hnc : ¬ 65535 < 1 + S := by omega
  have h255 : ¬ 255 < 1 + S := by omega
  have h127 : ¬ 127 < 1 + S := by omega
  have hand : (1 + S) &&& 0x7F = 1 + S := by
    rw [show (0x7F : Nat) = 2 ^ 7 - 1 from rfl, Nat.and_pow_two_sub_one_eq_mod]
    exact Nat.mod_eq_of_lt (by omega)
  have heq1 : encode_oid o = some ([6] ++ [(1 + S) &&& 0x7F] ++
      [(o.getD 0 0 * 40 + o.getD 1 0) % 256] ++
      ((o.drop 2).map subidBytes).flatten) := by
    rw [encode_oid]
    simp only [hmapeq, ← hS, if_neg hnc, if_neg h255, if_neg h127]
  have heq2 : encode_oid_len o = some (castShort (1 + S + 2)) := by
    rw [encode_oid_len]
    simp only [← hS, if_neg hnc, if_neg h255, if_neg h127]
  have hflat : (((o.drop 2).map subidBytes).flatten).length = S := by
    rw [List.length_flatten, List.map_map]
    have hc : (List.length ∘ subidBytes) = subidLen := by
      funext v
      exact subidBytes_length v
    rw [hc]
  have hcast : castShort (1 + S + 2) = ((1 + S + 2 : Nat) : Int) := by
    rw [castShort, if_pos] <;> omega
  have hlenB : ([6] ++ [(1 + S) &&& 0x7F] ++
      [(o.getD 0 0 * 40 + o.getD 1 0) % 256] ++
      ((o.drop 2).map subidBytes).flatten).length = 3 + S := by
    simp only [List.append_assoc, List.length_append, List.length_cons,
      List.length_nil, hflat]
    omega
  refine ⟨_, _, heq1, heq2, ?_⟩
  rw [hlenB, hcast]
  omega

/-- Witness for the C10 theorem at sysDescr.0. -/
theorem encode_oid_len_agrees_witness :
    (∀ v, subidLen_enc v = subidLen v) ∧
    ∃ bytes n, encode_oid [1, 3, 6, 1, 2, 1, 1, 1, 0] = some bytes ∧
      encode_oid_len [1, 3, 6, 1, 2, 1, 1, 1, 0] = some n ∧
      (bytes.length : Int) = n :=
  encode_oid_len_agrees [1, 3, 6, 1, 2, 1, 1, 1, 0] (by decide) (by decide)

/-- The TCP client record (snmpbug.h `client_t`), restricted to the two
fields the eviction policy reads and sets: last-activity timestamp
(`time_t`, modelled as Int) and socket descriptor. -/
structure ClientT where
  timestamp : Int
  sockfd : Int
deriving DecidableEq

/-- `MAX_NR_CLIENTS` (snmpbug.h:37). -/
def MAX_NR_CLIENTS : Nat := 16

/-- `LONG_MAX`, the initial comparison value in `find_oldest_client`
(utils.c:157) on LP64. -/
def LONG_MAX : Int := 9223372036854775807

/-- The scan loop of `find_oldest_client` (utils.c:159-165): `timestamp`
starts at LONG_MAX, strictly-smaller timestamps update `found`/`pos`. -/
def find_oldest_loop : List ClientT → Nat → Int → Option Nat → Option Nat
  | [], _, _, best => best
  | c :: rest, i, ts, best =>
      if c.timestamp < ts then find_oldest_loop rest (i + 1) c.timestamp (some i)
      else find_oldest_loop rest (i + 1) ts best

/-- `find_oldest_client` (utils.c:154-168), returning the index of the
returned client slot, none when `found` stayed 0. -/
def find_oldest_client (l : List ClientT) : Option Nat :=
  find_oldest_loop l 0 LONG_MAX none

/-- The connection-table update of `handle_tcp_connect` (snmpbug.c:147-190)
after a successful accept of client `c`: on a full table evict via
`find_oldest_client` and reuse that slot, terminating the process
(`exit(EXIT_SYSCALL)`, modelled as none) when it returns NULL; otherwise
append the new client. -/
def handle_tcp_connect (l : List ClientT) (c : ClientT) : Option (List ClientT) :=
  if MAX_NR_CLIENTS ≤ l.length then
    match find_oldest_client l with
    | none => none
    | some i => some (l.set i c)
  else some (l ++ [c])

theorem find_oldest_loop_none :
    ∀ (l : List ClientT) (i : Nat) (ts : Int) (best : Option Nat),
      (∀ x ∈ l, ts ≤ x.timestamp) → find_oldest_loop l i ts best = best
  | [], _, _, _, _ => rfl
  | c :: rest, i, ts, best, h => by
      have hc : ¬ c.timestamp < ts := not_lt.mpr (h c (by simp))
      simp only [find_oldest_loop, if_neg hc]
      exact find_oldest_loop_none rest (i + 1) ts best (fun x hx => h x (by simp [hx]))

theorem getD_mem_of_lt {α : Type} (l : List α) (d : α) (k : Nat)
    (h : k < l.length) : l.getD k d ∈ l := by
  rw [List.getD_eq_getElem l d h]
  exact List.getElem_mem h

theorem find_oldest_loop_found (d : ClientT) :
    ∀ (l : List ClientT) (i : Nat) (ts : Int) (best : Option Nat),
      (∃ x ∈ l, x.timestamp < ts) →
      ∃ j, j < l.length ∧ find_oldest_loop l i ts best = some (i + j) ∧
        (∀ k, k < l.length → (l.getD j d).timestamp ≤ (l.getD k d).timestamp) ∧
        (∀ k, k < j → (l.getD j d).timestamp < (l.getD k d).timestamp) ∧
        (l.getD j d).timestamp < ts := by
  intro l
  induction l with
  | nil =>
    intro i ts best h
    simp at h
  | cons c rest ih =>
    intro i ts best h
    by_cases hc : c.timestamp < ts
    · by_cases hrest : ∃ x ∈ rest, x.timestamp < c.timestamp
      · obtain ⟨j, hj, heq, hmin, hstrict, hlt⟩ := ih (i + 1) c.timestamp (some i) hrest
        refine ⟨j + 1, by simpa using Nat.succ_lt_succ hj, ?_, ?_, ?_, ?_⟩
        · simp only [find_oldest_loop, if_pos hc]
          rw [heq]
          congr 1
          omega
        · intro k hk
          cases k with
          | zero =>
            simp only [List.getD_cons_succ, List.getD_cons_zero]
            exact le_of_lt hlt
          | succ q =>
            simp only [List.getD_cons_succ]
            exact hmin q (by simpa using hk)
        · intro k hk
          cases k with
          | zero =>
            simp only [List.getD_cons_succ, List.getD_cons_zero]
            exact hlt
          | succ q =>
            simp only [List.getD_cons_succ]
            exact hstrict q (by omega)
        · simp only [List.getD_cons_succ]
          exact lt_trans hlt hc
      · push_neg at hrest
        refine ⟨0, by simp, ?_, ?_, ?_, ?_⟩
        · simp only [find_oldest_loop, if_pos hc]
          rw [find_oldest_loop_none rest (i + 1) c.timestamp (some i) hrest]
          simp
        · intro k hk
          cases k with
          | zero => simp
          | succ q =>
            simp only [List.getD_cons_succ, List.getD_cons_zero]
            exact hrest _ (getD_mem_of_lt rest d q (by simpa using hk))
        · intro k hk
          exact absurd hk (Nat.not_lt_zero k)
        · simp only [List.getD_cons_zero]
          exact hc
    · have hrest : ∃ x ∈ rest, x.timestamp < ts := by
        obtain ⟨x, hx, hxts⟩ := h
        rcases List.mem_cons.mp hx with rfl | hx'
        · exact absurd hxts hc
        · exact ⟨x, hx', hxts⟩
      obtain ⟨j, hj, heq, hmin, hstrict, hlt⟩ := ih (i + 1) ts best hrest
      refine ⟨j + 1, by simpa using Nat.succ_lt_succ hj, ?_, ?_, ?_, ?_⟩
      · simp only [find_oldest_loop, if_neg hc]
        rw [heq]
        congr 1
        omega
      · intro k hk
        cases k with
        | zero =>
          simp only [List.getD_cons_succ, List.getD_cons_zero]
          exact le_trans (le_of_lt hlt) (not_lt.mp hc)
        | succ q =>
          simp only [List.getD_cons_succ]
          exact hmin q (by simpa using hk)
      · intro k hk
        cases k with
        | zero =>
          simp only [List.getD_cons_succ, List.getD_cons_zero]
          exact lt_of_lt_of_le hlt (not_lt.mp hc)
        | succ q =>
          simp only [List.getD_cons_succ]
          exact hstrict q (by omega)
      · simp only [List.getD_cons_succ]
        exact hlt

/-- Counterexample to C9 as stated: on a full table in which every client
has timestamp LONG_MAX, a minimum-timestamp client exists, yet
`find_oldest_client` returns NULL (the strict `>` against the LONG_MAX
seed never fires) and `handle_tcp_connect` terminates the process
instead of evicting exactly one connection. -/
theorem handle_tcp_connect_claim_counterexample :
    (List.replicate 16 (⟨LONG_MAX, 0⟩ : ClientT)).length = MAX_NR_CLIENTS ∧
    (∃ x ∈ List.replicate 16 (⟨LONG_MAX, 0⟩ : ClientT),
      ∀ y ∈ List.replicate 16 (⟨LONG_MAX, 0⟩ : ClientT),
        x.timestamp ≤ y.timestamp) ∧
    find_oldest_client (List.replicate 16 (⟨LONG_MAX, 0⟩ : ClientT)) = none ∧
    handle_tcp_connect (List.replicate 16 (⟨LONG_MAX, 0⟩ : ClientT)) ⟨5, 7⟩ =
      none := by
  decide

/-- C9 (amended): when the table is full and some client's timestamp is
below LONG_MAX, exactly one connection is evicted — the one with the
minimum timestamp, at the earliest index on ties — and its slot is reused,
the length staying at 16; when the table is full but every timestamp is at
least the LONG_MAX seed, no candidate is found and the process terminates;
when the table is not full, nothing is evicted and the length grows by
one. -/
theorem handle_tcp_connect_eviction (l : List ClientT) (c : ClientT) :
    (MAX_NR_CLIENTS ≤ l.length → (∃ x ∈ l, x.timestamp < LONG_MAX) →
      ∃ j, j < l.length ∧ find_oldest_client l = some j ∧
        (∀ k, k < l.length →
          (l.getD j ⟨0, 0⟩).timestamp ≤ (l.getD k ⟨0, 0⟩).timestamp) ∧
        (∀ k, k < j →
          (l.getD j ⟨0, 0⟩).timestamp < (l.getD k ⟨0, 0⟩).timestamp) ∧
        handle_tcp_connect l c = some (l.set j c) ∧
        (l.set j c).length = l.length) ∧
    (MAX_NR_CLIENTS ≤ l.length → (∀ x ∈ l, LONG_MAX ≤ x.timestamp) →
      handle_tcp_connect l c = none) ∧
    (l.length < MAX_NR_CLIENTS →
      handle_tcp_connect l c = some (l ++ [c]) ∧
      (l ++ [c]).length = l.length + 1) := by
  refine ⟨?_, ?_, ?_⟩
  · intro hfull hex
    obtain ⟨j, hj, heq, hmin, hstrict, _⟩ :=
      find_oldest_loop_found ⟨0, 0⟩ l 0 LONG_MAX none hex
    have heq' : find_oldest_client l = some j := by
      rw [find_oldest_client, heq, Nat.zero_add]
    refine ⟨j, hj, heq', hmin, hstrict, ?_, by simp⟩
    simp only [handle_tcp_connect, if_pos hfull, heq']
  · intro hfull hall
    have hn : find_oldest_client l = none := by
      rw [find_oldest_client]
      exact find_oldest_loop_none l 0 LONG_MAX none hall
    simp only [handle_tcp_connect, if_pos hfull, hn]
  · intro hlt
    have hnf : ¬ MAX_NR_CLIENTS ≤ l.length := not_le.mpr hlt
    simp [handle_tcp_connect, if_neg hnf]

/-- Concrete full table with a unique minimum timestamp at index 15. -/
def evictTable : List ClientT := List.replicate 15 ⟨10, 0⟩ ++ [⟨3, 1⟩]

/-- Concrete full table with every timestamp pinned at LONG_MAX. -/
def pinnedTable : List ClientT := List.replicate 16 ⟨9223372036854775807, 4⟩

/-- Concrete incoming client. -/
def newClient : ClientT := ⟨100, 9⟩

/-- Witness for the C9 theorem: a full table with minimum timestamp 3 at
index 15, a full table pinned at LONG_MAX, and a one-entry table. -/
theorem handle_tcp_connect_eviction_witness :
    (∃ j, j < evictTable.length ∧ find_oldest_client evictTable = some j ∧
      (∀ k, k < evictTable.length →
        (evictTable.getD j ⟨0, 0⟩).timestamp ≤
          (evictTable.getD k ⟨0, 0⟩).timestamp) ∧
      (∀ k, k < j →
        (evictTable.getD j ⟨0, 0⟩).timestamp <
          (evictTable.getD k ⟨0, 0⟩).timestamp) ∧
      handle_tcp_connect evictTable newClient =
        some (evictTable.set j newClient) ∧
      (evictTable.set j newClient).length = evictTable.length) ∧
    handle_tcp_connect pinnedTable newClient = none ∧
    (handle_tcp_connect [(⟨1, 2⟩ : ClientT)] newClient =
        some ([(⟨1, 2⟩ : ClientT)] ++ [newClient]) ∧
      ([(⟨1, 2⟩ : ClientT)] ++ [newClient]).length =
        [(⟨1, 2⟩ : ClientT)].length + 1) :=
  ⟨(handle_tcp_connect_eviction evictTable newClient).1
    (by decide) ⟨⟨3, 1⟩, by decide, by decide⟩,
   (handle_tcp_connect_eviction pinnedTable newClient).2.1
    (by decide) (by decide),
   (handle_tcp_connect_eviction [(⟨1, 2⟩ : ClientT)] newClient).2.2 (by decide)⟩

/-- `MAX_NR_VALUES` (snmpbug.h:42), capacity of the `g_mib` table. -/
def MAX_NR_VALUES : Nat := 2048

/-- The static prefix OIDs of mib.c:45-56 (subid lists only). -/
def m_system_oid : Oid := [1, 3, 6, 1, 2, 1, 1]

def m_if_1_oid : Oid := [1, 3, 6, 1, 2, 1, 2]

def m_if_2_oid : Oid := [1, 3, 6, 1, 2, 1, 2, 2, 1]

def m_ip_oid : Oid := [1, 3, 6, 1, 2, 1, 4]

def m_tcp_oid : Oid := [1, 3, 6, 1, 2, 1, 6]

def m_udp_oid : Oid := [1, 3, 6, 1, 2, 1, 7]

def m_host_oid : Oid := [1, 3, 6, 1, 2, 1, 25, 1]

def m_ifxtable_oid : Oid := [1, 3, 6, 1, 2, 1, 31, 1, 1, 1]

def m_memory_oid : Oid := [1, 3, 6, 1, 4, 1, 2021, 4]

def m_disk_oid : Oid := [1, 3, 6, 1, 4, 1, 2021, 9, 1]

def m_load_oid : Oid := [1, 3, 6, 1, 4, 1, 2021, 10, 1]

def m_cpu_oid : Oid := [1, 3, 6, 1, 4, 1, 2021, 11]

/-- `oid_build` (mib.c:385-400): append column then row to the prefix,
checking the MAX_NR_SUBIDS bound before each append. -/
def oid_build (pre : Oid) (col row : Nat) : Option Oid :=
  if MAX_NR_SUBIDS ≤ pre.length then none
  else if MAX_NR_SUBIDS ≤ pre.length + 1 then none
  else some (pre ++ [col, row])

/-- `mib_alloc_entry` (mib.c:320-350) restricted to the OID it appends to
the `g_mib` table: fail on table overflow or `oid_build` overflow.
`mib_build_entry` (mib.c:354-363) is this plus a `data_set` that succeeds
for every type/value combination `mib_build` uses, so the same model
covers both for the purposes of the table's OID sequence. -/
def mib_alloc_entry (tbl : List Oid) (pre : Oid) (col row : Nat) :
    Option (List Oid) :=
  if MAX_NR_VALUES ≤ tbl.length then none
  else (oid_build pre col row).map (fun o => tbl ++ [o])

/-- One scalar section of `mib_build`: a sequence of
`mib_build_entry`/`mib_alloc_entry` calls on (column, row) pairs against
one prefix, aborting on the first failure. -/
def buildCols : List Oid → Oid → List (Nat × Nat) → Option (List Oid)
  | tbl, _, [] => some tbl
  | tbl, pre, (c, r) :: rest =>
      (mib_alloc_entry tbl pre c r).bind (fun t => buildCols t pre rest)

/-- One table column: `mib_build_entries` (mib.c:622-632) or the
equivalent `for` loops of row-wise `build_int`/`build_str`/... calls. -/
def buildRows : List Oid → Oid → Nat → List Nat → Option (List Oid)
  | tbl, _, _, [] => some tbl
  | tbl, pre, col, r :: rs =>
      (mib_alloc_entry tbl pre col r).bind (fun t => buildRows t pre col rs)

/-- A run of consecutive table columns, each over the same row range. -/
def buildTable : List Oid → Oid → List Nat → List Nat → Option (List Oid)
  | tbl, _, [], _ => some tbl
  | tbl, pre, c :: cs, rows =>
      (buildRows tbl pre c rows).bind (fun t => buildTable t pre cs rows)

/-- `in_cmp` (mib.c:556-562): `(int)(a->addr - b->addr)` — wrap-around
unsigned subtraction cast to int. -/
def in_cmp (a b : Nat) : Int := castSubid ((a + 4294967296 - b) % 4294967296)

/-- `sort_addr` (mib.c:564-574): pair each interface index with its
`netinfo->in_addr` entry and sort by `in_cmp`. qsort's algorithm is
unspecified; modelled as insertion sort, which agrees with every
comparison sort whenever the comparator answers consistently on the
elements present (as on the two-interface input used below). -/
def sort_addr (nIf : Nat) (in_addr : List Nat) : List (Nat × Nat) :=
  List.insertionSort (fun a b => in_cmp a.2 b.2 ≤ 0)
    ((List.range nIf).map (fun i => (i, in_addr.getD i 0)))

/-- `htonl` on a little-endian host: byte swap of a 32-bit value. -/
def htonl (v : Nat) : Nat :=
  (v % 256) * 16777216 + (v / 256 % 256) * 65536 +
    (v / 65536 % 256) * 256 + v / 16777216 % 256

/-- The ipAdEntry OID built by `build_ip_mib` (mib.c:591-593 over the
col-specific 14-subid prefixes of mib.c:778-781): positions 10..13 get
`(ip & (0xFF << (j*8))) >> (j*8)` for `ip = htonl(in_addr[pos])`. -/
def adentryOid (col a : Nat) : Oid :=
  [1, 3, 6, 1, 2, 1, 4, 20, 1, col] ++
    (List.range 4).map (fun j => ((htonl a) &&& (255 <<< (8 * j))) >>> (8 * j))

/-- `build_ip_mib` (mib.c:576-600): walk `sorted_interface_list`, skip
zero addresses, append one ipAdEntry per remaining address via
`mib_build_ip_entry` (mib.c:283-318), which fails only on table overflow;
`mib_build` ignores this function's return value (mib.c:785-788), so a
failure just truncates the section. -/
def build_ip_mib : List Oid → Nat → List Nat → List Nat → List Oid
  | tbl, _, [], _ => tbl
  | tbl, col, p :: ps, in_addr =>
      if in_addr.getD p 0 = 0 then build_ip_mib tbl col ps in_addr
      else if MAX_NR_VALUES ≤ tbl.length then tbl
      else build_ip_mib (tbl ++ [adentryOid col (in_addr.getD p 0)]) col ps
        in_addr

/-- `mib_build` (mib.c:661-975, CONFIG_ENABLE_DEMO disabled per
config.h): the fixed call sequence, parametrised by
`g_interface_list_length`, `g_disk_list_length`, and the contents of
`netinfo.in_addr` — which the C function reads UNINITIALISED, the
`get_netinfo(&netinfo)` call being commented out (mib.c:681), so the
addresses are whatever the stack held. Returns the OID sequence of the
built table, none on failure (return -1). -/
def mib_build (nIf nDisk : Nat) (in_addr : List Nat) : Option (List Oid) :=
  (buildCols [] m_system_oid
    [(1, 0), (2, 0), (3, 0), (4, 0), (5, 0), (6, 0), (7, 0)]).bind fun t1 =>
  (if 0 < nIf then
    (mib_alloc_entry t1 m_if_1_oid 1 0).bind fun ta =>
    (buildTable ta m_if_2_oid [1, 2, 3, 4, 5, 6, 7, 8, 9]
      (List.range' 1 nIf)).bind fun tb =>
    buildTable tb m_if_2_oid [10, 11, 13, 14, 16, 17, 19, 20]
      (List.range' 1 nIf)
  else some t1).bind fun t2 =>
  (buildCols t2 m_ip_oid [(1, 0), (2, 0), (13, 0)]).bind fun t3 =>
  (let pos := (sort_addr nIf in_addr).map Prod.fst
   let u1 := build_ip_mib t3 1 pos in_addr
   let u2 := build_ip_mib u1 2 pos in_addr
   let u3 := build_ip_mib u2 3 pos in_addr
   let u4 := build_ip_mib u3 4 pos in_addr
   buildCols u4 m_tcp_oid
    [(1, 0), (2, 0), (3, 0), (4, 0), (5, 0), (6, 0), (7, 0), (8, 0),
     (9, 0), (10, 0), (11, 0), (12, 0), (14, 0), (15, 0)]).bind fun t5 =>
  (buildCols t5 m_udp_oid
    [(1, 0), (2, 0), (3, 0), (4, 0), (8, 0), (9, 0)]).bind fun t6 =>
  (mib_alloc_entry t6 m_host_oid 1 0).bind fun t7 =>
  (if 0 < nIf then
    buildTable t7 m_ifxtable_oid (List.range' 1 19) (List.range' 1 nIf)
  else some t7).bind fun t8 =>
  (buildCols t8 m_memory_oid
    [(5, 0), (6, 0), (13, 0), (14, 0), (15, 0)]).bind fun t9 =>
  (if 0 < nDisk then
    buildTable t9 m_disk_oid [1, 2, 6, 7, 8, 9, 10] (List.range' 1 nDisk)
  else some t9).bind fun t10 =>
  (buildTable t10 m_load_oid [1, 2, 3, 4, 5] (List.range' 1 3)).bind fun t11 =>
  buildCols t11 m_cpu_oid
    [(50, 0), (51, 0), (52, 0), (53, 0), (59, 0), (60, 0)]

/-- C3: the built MIB is NOT always strictly ascending. With two
interfaces, no disks, and stack residue netinfo.in_addr = {1, 0xC0000002},
mib_build succeeds (returns 0), yet the comparator
`in_cmp = (int)(a - b)` judges 1 greater than 0xC0000002 (their
wrap-around difference 0x3FFFFFFF is positive), so sort_addr emits
192.0.0.2 before 0.0.0.1 and the two adjacent ipAdEntAddr rows at indices
45 and 46 satisfy compare(e[45], e[46]) == greater, violating the
ascending-order build contract. -/
theorem mib_build_claim_violated :
    (mib_build 2 0 [1, 3221225474]).isSome = true ∧
    46 < ((mib_build 2 0 [1, 3221225474]).getD []).length ∧
    ((mib_build 2 0 [1, 3221225474]).getD []).getD 45 [] =
      [1, 3, 6, 1, 2, 1, 4, 20, 1, 1, 192, 0, 0, 2] ∧
    ((mib_build 2 0 [1, 3221225474]).getD []).getD 46 [] =
      [1, 3, 6, 1, 2, 1, 4, 20, 1, 1, 0, 0, 0, 1] ∧
    oid_cmp (((mib_build 2 0 [1, 3221225474]).getD []).getD 45 [])
      (((mib_build 2 0 [1, 3221225474]).getD []).getD 46 []) = 1 := by
  decide
